/-
Verification of the tacobridge core (plan / execute / finalize pipeline)
against its natural-language specification.

The Python source is shallowly embedded: pyarrow tables become lists of
records together with an explicit column-name list, Python dicts used only
for lookup become association lists in which the most recent insertion
sits at the head (so `List.lookup`, which returns the first match, agrees
with Python's overwrite-on-assignment semantics), and the mutable-object
aliasing of `prepare_collection` is embedded through an explicit heap of
dictionaries addressed by natural numbers.  Collaborator primitives that
the spec declares external (remote fetch, URL-scheme stripping, parquet
serialization) appear as function parameters or are modelled from the
spec's own description of their contract.
-/
import Mathlib

set_option maxHeartbeats 1000000

namespace TacoBridge

/-! ### Constants (from `_constants.py` and the re-exported reader constants) -/

def COLUMN_ID : String := "id"

def COLUMN_TYPE : String := "type"

def METADATA_CURRENT_ID : String := "internal:current_id"

def METADATA_PARENT_ID : String := "internal:parent_id"

def METADATA_GDAL_VSI : String := "internal:gdal_vsi"

def METADATA_OFFSET : String := "internal:offset"

def METADATA_SIZE : String := "internal:size"

def METADATA_SOURCE_PATH : String := "internal:source_path"

def METADATA_SOURCE_FILE : String := "internal:source_file"

def METADATA_RELATIVE_PATH : String := "internal:relative_path"

def SAMPLE_TYPE_FOLDER : String := "FOLDER"

def SAMPLE_TYPE_FILE : String := "FILE"

def FOLDER_DATA_DIR : String := "DATA"

def FOLDER_META_FILENAME : String := "__meta__"

def FOLDER_METADATA_DIR : String := "METADATA"

def FOLDER_COLLECTION_FILENAME : String := "COLLECTION.json"

def PIT_SCHEMA_KEY : String := "taco:pit_schema"

def FIELD_SCHEMA_KEY : String := "taco:field_schema"

def SUBSET_OF_KEY : String := "taco:subset_of"

def SUBSET_DATE_KEY : String := "taco:subset_date"

/-! ### Tables

A table row exposes the reserved columns of the data model (§3 of the
spec).  Optional columns hold `none` when absent or null.  A table pairs
the rows with the schema's column-name list, which `strip_columns` and the
`internal:relative_path` drop in `build_local_metadata` operate on; when a
column is dropped the corresponding record field is reset to `none` so the
data is no longer observable, as in pyarrow. -/

structure Row where
  id : String
  type : String
  current_id : Int
  parent_id : Int
  gdal_vsi : String := ""
  relative_path : Option String := none
  source_path : Option String := none
  source_file : Option String := none
  offset : Option Int := none
  size : Option Int := none
deriving DecidableEq, Repr

structure Table where
  cols : List String
  rows : List Row
deriving DecidableEq, Repr

instance : Inhabited Table := ⟨⟨[], []⟩⟩

/-- `range(n)` as a list of int64 values. -/
def intRange (n : Nat) : List Int := (List.range n).map Int.ofNat

/-- Python truthiness of an optional string cell: `None` and `""` are falsy. -/
def truthy : Option String → Bool
  | none => false
  | some s => !(s == "")

/-- `_metadata.get_source_key`: extract the source key from a row for
composite keying in concat datasets.  Falls back from
`internal:source_path` to `internal:source_file` and finally to the empty
string, treating null and empty-string cells as absent (Python truthiness
of `row.get(col)`). -/
def get_source_key (r : Row) (has_source_path has_source_file : Bool) : String :=
  if has_source_path && truthy r.source_path then r.source_path.getD ""
  else if has_source_file && truthy r.source_file then r.source_file.getD ""
  else ""

def EXPORT_STRIP_COLUMNS : List String :=
  [METADATA_OFFSET, METADATA_SIZE, METADATA_SOURCE_PATH, METADATA_SOURCE_FILE]

/-- Resetting the record field corresponding to a dropped column. -/
def dropCellsOf (c : String) (r : Row) : Row :=
  if c == METADATA_OFFSET then { r with offset := none }
  else if c == METADATA_SIZE then { r with size := none }
  else if c == METADATA_SOURCE_PATH then { r with source_path := none }
  else if c == METADATA_SOURCE_FILE then { r with source_file := none }
  else if c == METADATA_RELATIVE_PATH then { r with relative_path := none }
  else r

/-- `_metadata.strip_columns`: remove the named columns when present;
missing columns are ignored. -/
def strip_columns (t : Table) (columns : List String := EXPORT_STRIP_COLUMNS) : Table :=
  columns.foldl
    (fun acc c =>
      if acc.cols.contains c then
        { cols := acc.cols.erase c, rows := acc.rows.map (dropCellsOf c) }
      else acc)
    t

/-- `_metadata.reindex_table`: replace the two identifier columns in bulk.
At every call site the two id lists have exactly the row count (pyarrow's
`set_column` rejects anything else), so the truncating zip is exact. -/
def reindex_table (t : Table) (newCur newPar : List Int) : Table :=
  { t with
    rows := (t.rows.zip (newCur.zip newPar)).map
      (fun p => { p.1 with current_id := p.2.1, parent_id := p.2.2 }) }

/-! ### Reindexing from the level-0 snapshot (`_metadata.reindex_metadata_from_snapshot`)

The Python `parent_id_mapping` dict maps `(source_key, old_current_id)`
pairs to new indices.  It is embedded as an association list in which the
most recent insertion comes first, so `List.lookup` (first match) agrees
with the dict's overwrite-on-assignment lookup behaviour.  The loop
`for new_idx, row in enumerate(rows): mapping[key(row)] = new_idx` becomes
prepending the reversed enumeration, keeping later rows nearer the head. -/

abbrev PMap := List ((String × Int) × Int)

/-- The key a row contributes to the parent-id mapping. -/
def levelKey (hasSP hasSF : Bool) (r : Row) : String × Int :=
  (get_source_key r hasSP hasSF, r.current_id)

/-- The key a row looks up to find its parent's new id. -/
def parentKey (hasSP hasSF : Bool) (r : Row) : String × Int :=
  (get_source_key r hasSP hasSF, r.parent_id)

/-- The mapping entries contributed by one level's kept rows, in insertion
order. -/
def entriesFor (hasSP hasSF : Bool) (rows : List Row) : PMap :=
  rows.enum.map (fun p => (levelKey hasSP hasSF p.2, (p.1 : Int)))

/-- Extending the parent-id mapping with one level's kept rows (the
enumeration loop of `reindex_metadata_from_snapshot`). -/
def extendMap (hasSP hasSF : Bool) (m : PMap) (rows : List Row) : PMap :=
  (entriesFor hasSP hasSF rows).reverse ++ m

/-- One level `ℓ > 0` of `reindex_metadata_from_snapshot`: walk the rows in
order, keep a row exactly when its `(source_key, old_parent_id)` key is in
the mapping, pairing it with the mapped new parent id.  The two
`filtered_rows` / `new_parent_ids` lists built in lockstep by the Python
loop are the two projections of this single pass. -/
def filterLevel (hasSP hasSF : Bool) (m : PMap) (rows : List Row) : List (Row × Int) :=
  rows.filterMap (fun r => (m.lookup (parentKey hasSP hasSF r)).map (fun v => (r, v)))

/-- The levels `ℓ > 0` of the reindexing loop.  Each step returns the
finished (reindexed, stripped) table together with the `filtered_rows`
intermediate (the kept source rows, still carrying their old ids), and
threads the extended mapping to the next level. -/
def processDeeper (hasSP hasSF : Bool) : PMap → List Table → List (Table × List Row)
  | _, [] => []
  | m, t :: rest =>
    let pairs := filterLevel hasSP hasSF m t.rows
    let filteredRows := pairs.map Prod.fst
    let newParentIds := pairs.map Prod.snd
    let m' := extendMap hasSP hasSF m filteredRows
    let table := strip_columns
      (reindex_table { cols := t.cols, rows := filteredRows }
        (intRange filteredRows.length) newParentIds)
    (table, filteredRows) :: processDeeper hasSP hasSF m' rest

/-! ### Local metadata (`_metadata.build_local_metadata`)

The per-level `paths_by_level` dicts and the `local_metadata` dict are
association lists with the most recent write first.  Within one level the
loop body reads only the previous level's path dict and writes only the
current level's dict and the result map, so the loop is the (reversed) map
over the level's folder rows. -/

/-- The relative output path of one folder row, from the previous level's
`id → path` table (`paths_by_level[level_idx - 1].get(parent_id, "")`,
with Python's falsy test on the empty parent path). -/
def relPathOf (levelIdx : Nat) (prevPaths : List (Int × String)) (f : Row) : String :=
  if levelIdx == 0 then f.id
  else
    let parentPath := (prevPaths.lookup f.parent_id).getD ""
    if parentPath == "" then f.id else parentPath ++ "/" ++ f.id

/-- The children table stored for one folder: the next level's rows whose
`internal:parent_id` equals the folder's `internal:current_id` (a zero-row
slice with the same schema when there are none), with any
`internal:relative_path` column dropped. -/
def childrenOf (next : Table) (f : Row) : Table :=
  let children : Table :=
    { cols := next.cols, rows := next.rows.filter (fun r => r.parent_id == f.current_id) }
  if children.cols.contains METADATA_RELATIVE_PATH then
    { cols := children.cols.erase METADATA_RELATIVE_PATH,
      rows := children.rows.map (dropCellsOf METADATA_RELATIVE_PATH) }
  else children

/-- One `(levels[ℓ], levels[ℓ+1])` step of `build_local_metadata`: the new
`paths_by_level[ℓ]` table and this level's `local_metadata` entries, both
most-recent-first. -/
def stepLM (levelIdx : Nat) (prevPaths : List (Int × String)) (cur next : Table) :
    List (Int × String) × List (String × Table) :=
  let folders := cur.rows.filter (fun r => r.type == SAMPLE_TYPE_FOLDER)
  ((folders.map (fun f => (f.current_id, relPathOf levelIdx prevPaths f))).reverse,
   (folders.map (fun f =>
      (FOLDER_DATA_DIR ++ "/" ++ relPathOf levelIdx prevPaths f ++ "/", childrenOf next f))).reverse)

/-- The pairwise walk of `build_local_metadata`; note the loop runs over
`range(len(levels) - 1)`, so the deepest level is never the `cur` table.
Deeper levels' dict writes are more recent, hence placed first. -/
def buildLMAux (prevPaths : List (Int × String)) (levelIdx : Nat) :
    List Table → List (String × Table)
  | cur :: next :: rest =>
    let s := stepLM levelIdx prevPaths cur next
    buildLMAux s.1 (levelIdx + 1) (next :: rest) ++ s.2
  | _ => []

/-- `_metadata.build_local_metadata`: map from `DATA/<folder path>/` keys
to the children tables destined for the folders' `__meta__` files. -/
def build_local_metadata (levels : List Table) : List (String × Table) :=
  buildLMAux [] 0 levels

/-- The '/'-joined concatenation of a row's ancestor ids and its own id
(the path the spec's local-metadata coverage invariant names): at level
`ℓ > 0` the parent is the unique row of the level above whose
`internal:current_id` equals this row's `internal:parent_id`. -/
def ancestorPath (levels : List Table) : Nat → Row → String
  | 0, r => r.id
  | ℓ + 1, r =>
    match (levels.getD ℓ default).rows.find? (fun p => p.current_id == r.parent_id) with
    | some p => ancestorPath levels ℓ p ++ "/" ++ r.id
    | none => r.id

/-- The `DATA/<path>/` keys of one level's folder rows. -/
def folderKeySeg (levels : List Table) (ℓ : Nat) : List String :=
  ((levels.getD ℓ default).rows.filter (fun r => r.type == SAMPLE_TYPE_FOLDER)).map
    (fun f => FOLDER_DATA_DIR ++ "/" ++ ancestorPath levels ℓ f ++ "/")

/-- The `DATA/<path>/` keys of all folder rows over the pairwise-walked
levels (the deepest level excluded, as in the walk). -/
def folderKeys (levels : List Table) : List String :=
  ((List.range (levels.length - 1)).map (folderKeySeg levels)).flatten

/-- `_metadata.reindex_metadata_from_snapshot`: reindex metadata using the
pre-fetched level-0 snapshot; deeper level tables (already fetched from
the view, preferring any filtered variant) are the `deeper` argument.
Returns the levels plus the local-metadata map. -/
def reindex_metadata_from_snapshot (snapshot : Table) (deeper : List Table) :
    List Table × List (String × Table) :=
  let hasSP := snapshot.cols.contains METADATA_SOURCE_PATH
  let hasSF := snapshot.cols.contains METADATA_SOURCE_FILE
  let m0 := extendMap hasSP hasSF [] snapshot.rows
  let n := snapshot.rows.length
  let t0 := strip_columns (reindex_table snapshot (intRange n) (intRange n))
  let levels := t0 :: (processDeeper hasSP hasSF m0 deeper).map Prod.fst
  (levels, build_local_metadata levels)

/-- The mapping accumulated after extending with each of `kepts` in turn
(most recent level's entries first): `extendMap (… (extendMap [] k₀) …) kₙ`
written in one pass, for reasoning about the reindexing loop's state. -/
def mFor (hasSP hasSF : Bool) (kepts : List (List Row)) : PMap :=
  (kepts.map (fun rs => (entriesFor hasSP hasSF rs).reverse)).reverse.flatten

/-- The `filtered_rows` intermediate of each level, level 0 first (the
snapshot is kept whole). -/
def keptRows (snapshot : Table) (deeper : List Table) : List (List Row) :=
  let hasSP := snapshot.cols.contains METADATA_SOURCE_PATH
  let hasSF := snapshot.cols.contains METADATA_SOURCE_FILE
  let m0 := extendMap hasSP hasSF [] snapshot.rows
  snapshot.rows :: (processDeeper hasSP hasSF m0 deeper).map Prod.snd

/-- The reindexing loop applied to the remaining levels `ts` when the
levels in `kepts` (level 0 first) have already been processed. -/
def pdOut (hasSP hasSF : Bool) (kepts : List (List Row)) (ts : List Table) :
    List (Table × List Row) :=
  processDeeper hasSP hasSF (mFor hasSP hasSF kepts) ts

def pdTable (hasSP hasSF : Bool) (kepts : List (List Row)) (ts : List Table) (a : Nat) : Table :=
  ((pdOut hasSP hasSF kepts ts).getD a (default, [])).1

def pdKept (hasSP hasSF : Bool) (kepts : List (List Row)) (ts : List Table) (a : Nat) :
    List Row :=
  ((pdOut hasSP hasSF kepts ts).getD a (default, [])).2

/-- The kept rows of the level just above `ts[a]` (the last of `kepts`
when `a = 0`, else the previously processed level of `ts`). -/
def pdPrev (hasSP hasSF : Bool) (kepts : List (List Row)) (ts : List Table) (a : Nat) :
    List Row :=
  (kepts ++ (pdOut hasSP hasSF kepts ts).map Prod.snd).getD (kepts.length - 1 + a) []

/-! ### `prepare_collection` with Python aliasing (`_metadata.prepare_collection`)

`dataset.collection.copy()` is a *shallow* dict copy, and
`collection[PIT_SCHEMA_KEY]["root"]["n"] = …` then mutates a nested dict
object in place.  To embed this faithfully, dict values are either scalars
or references into a heap of dictionaries; `copy` duplicates only the
top-level entry list, so nested references stay shared. -/

inductive PyVal where
  | vstr : String → PyVal
  | vint : Int → PyVal
  | vref : Nat → PyVal
deriving DecidableEq, Repr

abbrev PyDict := List (String × PyVal)

/-- Python dict assignment: replace the first (unique) occurrence in
place, else append the new key at the end. -/
def dictSet : PyDict → String → PyVal → PyDict
  | [], k, v => [(k, v)]
  | (k', v') :: rest, k, v =>
    if k' == k then (k, v) :: rest else (k', v') :: dictSet rest k v

structure Heap where
  objs : List PyDict
deriving DecidableEq, Repr

def Heap.get (h : Heap) (a : Nat) : PyDict := h.objs.getD a []

def Heap.set (h : Heap) (a : Nat) (d : PyDict) : Heap := ⟨h.objs.set a d⟩

/-- Allocate a fresh dict object, returning its address. -/
def Heap.alloc (h : Heap) (d : PyDict) : Heap × Nat :=
  (⟨h.objs ++ [d]⟩, h.objs.length)

/-- `_metadata.prepare_collection`.  `collAddr` is the address of the
view's collection dict, `rootN` the view's `pit_schema.root["n"]`, `now`
the injected clock reading.  Returns the updated heap and the address of
the manifest; `none` embeds the uncaught `KeyError`/`TypeError` Python
would raise when the `taco:pit_schema → root` path is missing or not a
dict. -/
def prepare_collection (h : Heap) (collAddr : Nat) (rootN : PyVal) (now : String) :
    Option (Heap × Nat) :=
  let coll := h.get collAddr
  -- collection = dataset.collection.copy()  (shallow copy)
  let alloc := h.alloc coll
  let h1 := alloc.1
  let newAddr := alloc.2
  -- collection[PIT_SCHEMA_KEY]["root"]["n"] = dataset.pit_schema.root["n"]
  match coll.lookup PIT_SCHEMA_KEY with
  | some (PyVal.vref pitAddr) =>
    match (h1.get pitAddr).lookup "root" with
    | some (PyVal.vref rootAddr) =>
      let h2 := h1.set rootAddr (dictSet (h1.get rootAddr) "n" rootN)
      -- collection[SUBSET_OF_KEY] = collection.get("id", "unknown")
      let subsetOf := (coll.lookup "id").getD (PyVal.vstr "unknown")
      -- collection[SUBSET_DATE_KEY] = datetime.now(UTC).isoformat()
      let d := dictSet (dictSet (h2.get newAddr) SUBSET_OF_KEY subsetOf)
        SUBSET_DATE_KEY (PyVal.vstr now)
      some (h2.set newAddr d, newAddr)
    | _ => none
  | _ => none

/-! ### Executor (`execute.py`)

Sources are byte sequences addressed by path; the local/remote classifier
and the remote fetch primitives are reader collaborators.  The byte-range
download is modelled from the spec: a whole-object or `[offset,
offset+size)` fetch. -/

structure CopyTask where
  src : String
  dest : String
  offset : Option Nat := none
  size : Option Nat := none
deriving DecidableEq, Repr

/-- `execute._read_local`: `f.seek(offset)` when offset is set, then
`f.read(size)` when size is set else `f.read()`. -/
def read_local (data : List Nat) (offset size : Option Nat) : List Nat :=
  let pos := offset.getD 0
  match size with
  | some s => (data.drop pos).take s
  | none => data.drop pos

/-- `execute._read_remote`.  Modelled from the spec: the collaborator's
`download_range` returns the `[offset, offset+size)` slice and
`download_bytes` the whole object. -/
def read_remote (data : List Nat) (offset size : Option Nat) : List Nat :=
  match offset, size with
  | some o, some s => (data.drop o).take s
  | _, _ => data

/-- `execute._read_bytes`: dispatch on the collaborator's
local-versus-remote classifier. -/
def read_bytes (isRemote : Bool) (data : List Nat) (offset size : Option Nat) : List Nat :=
  if isRemote then read_remote data offset size else read_local data offset size

/-- A local filesystem: file contents by path (latest write first) and the
set of directories that exist. -/
structure FS where
  files : List (String × List Nat)
  dirs : List String
deriving DecidableEq, Repr

def FS.read (fs : FS) (p : String) : Option (List Nat) := fs.files.lookup p

/-- Splitting a character list on a separator (the char-list analogue of
`str.split`, kept structurally recursive so proofs can compute with it). -/
def splitOnChar (c : Char) : List Char → List (List Char)
  | [] => [[]]
  | ch :: rest =>
    match splitOnChar c rest with
    | [] => if ch == c then [[], []] else [[ch]]
    | h :: t => if ch == c then [] :: h :: t else (ch :: h) :: t

/-- Joining path components with `/`. -/
def interSlash : List (List Char) → List Char
  | [] => []
  | [x] => x
  | x :: y :: rest => x ++ '/' :: interSlash (y :: rest)

/-- The parent directories of a path, outermost first
(`dest_path.parent.mkdir(parents=True, exist_ok=True)`). -/
def parentDirs (p : String) : List String :=
  let parts := (splitOnChar '/' p.data).dropLast
  (List.range parts.length).map (fun i => String.mk (interSlash (parts.take (i + 1))))

/-- `execute._write_bytes`: create the missing parent directories, then
write the bytes to the destination. -/
def write_bytes (fs : FS) (dest : String) (data : List Nat) : FS :=
  { files := (dest, data) :: fs.files, dirs := parentDirs dest ++ fs.dirs }

/-- `execute.execute`: read from the source (range or whole object) and
write to the local destination.  `srcBytes` gives each readable source's
bytes (`none` embeds a read failure, wrapped into `TacoExecuteError`). -/
def execute (isRemote : String → Bool) (srcBytes : String → Option (List Nat))
    (fs : FS) (t : CopyTask) : Except String FS :=
  match srcBytes t.src with
  | none => .error ("Failed: " ++ t.src ++ " -> " ++ t.dest)
  | some data => .ok (write_bytes fs t.dest (read_bytes (isRemote t.src) data t.offset t.size))

/-! ### VSI byte-range locations (`plan._vsi_to_copy_task`)

Byte-range location strings have the spec's §6 shape
`<vsi-marker><archive-path>,<decimal-offset>,<decimal-size>`.  The parse
is modelled from the spec (tacoreader's `parse_vsi_subfile` is a reader
collaborator): split the two numeric fields off at the last two commas.
The URL-scheme stripping (`strip_vsi_prefix`) is declared opaque to the
core, so it is a function parameter. -/

def vsiSubfileMarker : List Char := "/vsisubfile/".data

/-- Split a character list at its last comma, `none` when it has no comma. -/
def lastSplitComma : List Char → Option (List Char × List Char)
  | [] => none
  | c :: rest =>
    match lastSplitComma rest with
    | some (a, b) => some (c :: a, b)
    | none => if c == ',' then some ([], rest) else none

/-- Decimal value of a digit string. -/
def parseNatChars (cs : List Char) : Nat :=
  cs.foldl (fun a c => a * 10 + (c.toNat - '0'.toNat)) 0

/-- Modelled from the spec: the reader collaborator's
`parse_vsi_subfile`, splitting `(archive_path, offset, size)` out of the
byte-range location string's §6 format. -/
def parse_vsi_subfile (cs : List Char) : List Char × Nat × Nat :=
  let rest := cs.drop vsiSubfileMarker.length
  match lastSplitComma rest with
  | some (front, sizeStr) =>
    match lastSplitComma front with
    | some (path, offStr) => (path, parseNatChars offStr, parseNatChars sizeStr)
    | none => (front, 0, parseNatChars sizeStr)
  | none => (rest, 0, 0)

/-- `plan._vsi_to_copy_task`.  `strip` is the reader collaborator's
URL-scheme stripping, opaque to the core. -/
def vsi_to_copy_task (strip : String → String) (vsi dest : String) : CopyTask :=
  if vsiSubfileMarker.isPrefixOf vsi.data then
    let parsed := parse_vsi_subfile vsi.data
    { src := strip (String.mk parsed.1), dest := dest,
      offset := some parsed.2.1, size := some parsed.2.2 }
  else
    { src := vsi, dest := dest, offset := none, size := none }

/-! ### Planner (`plan.py`)

A dataset view is opaque reader state: the planner only ever sees the
snapshot query result, the deeper level tables, the child-query results,
and a few scalars.  `query lvl pid sp sf` is the arrow table returned by
`_query_children` for `level<lvl>` scoped by parent id and provenance. -/

structure Dataset where
  rootN : Int
  hasLevel1Joins : Bool
  viewName : String
  snapshot : Table
  deeper : List Table
  query : Nat → Int → Option String → Option String → List Row
  sourcePath : String
  heap : Heap
  collAddr : Nat

/-- `max_depth` of the view's pit schema. -/
def Dataset.maxDepth (ds : Dataset) : Nat := ds.deeper.length

inductive BridgeError where
  | planError : String → BridgeError
  | otherError : String → BridgeError
deriving DecidableEq, Repr

structure ExportPlan where
  tasks : List CopyTask
  source : String
  output : String
  levels : List Table
  local_metadata : List (String × Table)
  collectionHeap : Heap
  collectionAddr : Nat
deriving DecidableEq, Repr

/-- Destination-relative name of a leaf row:
`row.get(internal:relative_path) or row[id]` (Python `or`, so an empty
string also falls back to the id). -/
def leafRelName (r : Row) : String :=
  match r.relative_path with
  | some p => if p == "" then r.id else p
  | none => r.id

/-- `plan._collect_folder_children` / the leaf branch of the snapshot
walk.  Recursion is over the remaining depth (`next_level > max_depth`
stops it in the source); the fuel starts at `maxDepth + 1` so it never
runs out first.  Returns the tasks and the log of child queries issued. -/
def collectChildren (strip : String → String) (ds : Dataset) (dataDir : String) :
    Nat → Nat → Row → List CopyTask × List String
  | 0, _, _ => ([], [])
  | fuel + 1, level, folderRow =>
    let nextLevel := level + 1
    if nextLevel > ds.maxDepth then ([], [])
    else
      let children := ds.query nextLevel folderRow.current_id
        (if truthy folderRow.source_path then folderRow.source_path else none)
        (if truthy folderRow.source_file then folderRow.source_file else none)
      children.foldl
        (fun acc child =>
          if child.type == SAMPLE_TYPE_FOLDER then
            match collectChildren strip ds dataDir fuel nextLevel child with
            | (ts, qs) => (acc.1 ++ ts, acc.2 ++ qs)
          else
            (acc.1 ++ [vsi_to_copy_task strip child.gdal_vsi
              (dataDir ++ "/" ++ leafRelName child)], acc.2))
        ([], ["level" ++ toString nextLevel])

/-- `plan._collect_copy_tasks_from_snapshot`. -/
def collect_copy_tasks_from_snapshot (strip : String → String) (ds : Dataset)
    (snapshot : Table) (output : String) : List CopyTask × List String :=
  let dataDir := output ++ "/" ++ FOLDER_DATA_DIR
  snapshot.rows.foldl
    (fun acc r =>
      if r.type == SAMPLE_TYPE_FOLDER then
        match collectChildren strip ds dataDir (ds.maxDepth + 1) 0 r with
        | (ts, qs) => (acc.1 ++ ts, acc.2 ++ qs)
      else
        (acc.1 ++ [vsi_to_copy_task strip r.gdal_vsi (dataDir ++ "/" ++ leafRelName r)], acc.2))
    ([], [])

/-- `plan.plan_export`.  Returns the outcome together with the log of
view queries issued (each `duckdb.execute`), so the plan-exists guard's
"without reading the view" is observable.  `now` is the injected clock. -/
def plan_export (strip : String → String) (ds : Dataset) (outputExists : Bool)
    (output : String) (now : String) :
    Except BridgeError ExportPlan × List String :=
  if outputExists then
    (.error (.planError ("Output already exists: " ++ output)), [])
  else if ds.rootN == 0 then
    (.error (.planError "Dataset is empty"), [])
  else if ds.hasLevel1Joins then
    (.error (.planError "Cannot export dataset with level1+ JOINs"), [])
  else
    -- CRITICAL: read the filtered level0 once
    let snapshot := ds.snapshot
    let collected := collect_copy_tasks_from_snapshot strip ds snapshot output
    let reindexed := reindex_metadata_from_snapshot snapshot ds.deeper
    match prepare_collection ds.heap ds.collAddr (PyVal.vint ds.rootN) now with
    | none => (.error (.otherError "KeyError"), ds.viewName :: collected.2)
    | some hc =>
      (.ok { tasks := collected.1, source := ds.sourcePath, output := output,
             levels := reindexed.1, local_metadata := reindexed.2,
             collectionHeap := hc.1, collectionAddr := hc.2 },
       ds.viewName :: collected.2 ++ (List.range ds.deeper.length).map
         (fun i => "level" ++ toString (i + 1)))

/-! ### `plan.plan_folder2zip` and the `DATA/` scan -/

structure ZipEntry where
  src : String
  arc_path : String
deriving DecidableEq, Repr

structure Folder2ZipPlan where
  entries : List ZipEntry
  source : String
  output : String
  levels : List Table
  local_metadata : List (String × Table)
  collection : PyDict
deriving DecidableEq, Repr

/-- One entry of the recursive `DATA/` walk: the path relative to `DATA/`
and whether it is a regular file (`rglob("*")` also yields directories). -/
structure WalkEntry where
  rel : String
  isFile : Bool
deriving DecidableEq, Repr

/-- The last path component (`file_path.name`). -/
def baseName (p : String) : String :=
  String.mk (((splitOnChar '/' p.data).getLast?).getD p.data)

/-- `plan._scan_folder_files`: keep regular files not named `__meta__`,
with archive path `DATA/<relative-to-DATA>`. -/
def scan_folder_files (folder : String) (dataDirExists : Bool) (walk : List WalkEntry) :
    Except BridgeError (List ZipEntry) :=
  let dataDir := folder ++ "/" ++ FOLDER_DATA_DIR
  if !dataDirExists then
    .error (.planError (FOLDER_DATA_DIR ++ " directory not found: " ++ dataDir))
  else
    let entries := walk.filterMap (fun e =>
      if e.isFile && !(baseName e.rel == FOLDER_META_FILENAME) then
        some { src := dataDir ++ "/" ++ e.rel,
               arc_path := FOLDER_DATA_DIR ++ "/" ++ e.rel : ZipEntry }
      else none)
    if entries.isEmpty then
      .error (.planError ("No data files found: " ++ dataDir))
    else
      .ok entries

/-- `plan.plan_folder2zip`.  The folder's on-disk state is summarised by
the existence flags, the parsed collection (`none` when `COLLECTION.json`
is missing or invalid), the sorted `level*.parquet` tables, and the
`DATA/` walk. -/
def plan_folder2zip (source output : String) (outputExists sourceExists : Bool)
    (collectionExists : Bool) (collectionParses : Option PyDict)
    (metadataDirExists : Bool) (levelFiles : List Table)
    (dataDirExists : Bool) (walk : List WalkEntry) :
    Except BridgeError Folder2ZipPlan :=
  if outputExists then
    .error (.planError ("Output already exists: " ++ output))
  else if !sourceExists then
    .error (.planError ("Source folder not found: " ++ source))
  else if !collectionExists then
    .error (.planError (FOLDER_COLLECTION_FILENAME ++ " not found: " ++ source ++ "/"
      ++ FOLDER_COLLECTION_FILENAME))
  else
    match collectionParses with
    | none => .error (.planError ("Invalid " ++ FOLDER_COLLECTION_FILENAME))
    | some coll =>
      if !metadataDirExists then
        .error (.planError (FOLDER_METADATA_DIR ++ " directory not found: " ++ source ++ "/"
          ++ FOLDER_METADATA_DIR))
      else if levelFiles.isEmpty then
        .error (.planError ("No level*.parquet files found: " ++ source ++ "/"
          ++ FOLDER_METADATA_DIR))
      else
        match scan_folder_files source dataDirExists walk with
        | .error e => .error e
        | .ok entries =>
          .ok { entries := entries, source := source, output := output,
                levels := levelFiles,
                local_metadata := build_local_metadata levelFiles,
                collection := coll }

/-! ### ZIP → FOLDER: the general path and the local fast path

`zip2folder` on a local archive takes the fast path `_zip2folder_local`;
on a remote source it goes through `plan_zip2folder` → `execute` each task
→ `finalize`.  Claim C7 compares the two on the same local archive.  The
parquet writers (`write_parquet_file_with_cdc`, `write_parquet_file`) and
the JSON serializer are external collaborators, passed as parameters; the
archive is a list of file members (name, decompressed bytes). -/

/-- `_metadata.strip_zip_columns`: every level table of the freshly loaded
dataset with the format-specific columns removed.  `fullLevels` are the
`level<ℓ>` query results for ℓ = 0 … max_depth. -/
def strip_zip_columns (fullLevels : List Table) : List Table :=
  fullLevels.map (fun t => strip_columns t)

structure Zip2FolderPlan where
  tasks : List CopyTask
  source : String
  output : String
  levels : List Table
  local_metadata : List (String × Table)
  collection : PyDict
deriving DecidableEq, Repr

/-- The level tables `SELECT * FROM level<ℓ>` of the loaded archive, part
of the reader state next to the view snapshot. -/
structure ZipDataset extends Dataset where
  fullLevels : List Table

/-- `plan.plan_zip2folder`. -/
def plan_zip2folder (strip : String → String) (ds : ZipDataset)
    (outputExists loadOk : Bool) (source output : String) :
    Except BridgeError Zip2FolderPlan :=
  if outputExists then
    .error (.planError ("Output already exists: " ++ output))
  else if !loadOk then
    .error (.planError ("Failed to open dataset: " ++ source))
  else
    let tasks := (collect_copy_tasks_from_snapshot strip ds.toDataset ds.snapshot output).1
    let levels := strip_zip_columns ds.fullLevels
    .ok { tasks := tasks, source := source, output := output,
          levels := levels,
          local_metadata := build_local_metadata levels,
          collection := ds.heap.get ds.collAddr }

/-- Sequential task execution (`api._execute_tasks` with `workers = 1`). -/
def runTasks (isRemote : String → Bool) (srcBytes : String → Option (List Nat)) :
    FS → List CopyTask → Except String FS
  | fs, [] => .ok fs
  | fs, t :: ts =>
    match execute isRemote srcBytes fs t with
    | .error e => .error e
    | .ok fs' => runTasks isRemote srcBytes fs' ts

/-- `finalize._finalize_to_folder`: write `METADATA/level<ℓ>.parquet`
(content-defined-chunking writer), each `__meta__` (plain writer), then
`COLLECTION.json`. -/
def finalize_to_folder (pqCdc pq : Table → List Nat) (collBytes : List Nat)
    (output : String) (levels : List Table) (lm : List (String × Table)) (fs : FS) : FS :=
  let fs1 := (levels.enum).foldl
    (fun f p => write_bytes f
      (output ++ "/" ++ FOLDER_METADATA_DIR ++ "/level" ++ toString p.1 ++ ".parquet")
      (pqCdc p.2)) fs
  let fs2 := lm.foldl
    (fun f p => write_bytes f (output ++ "/" ++ p.1 ++ FOLDER_META_FILENAME) (pq p.2)) fs1
  write_bytes fs2 (output ++ "/" ++ FOLDER_COLLECTION_FILENAME) collBytes

/-- Whether an archive member is extracted by the fast path:
`m.startswith("DATA/") and not m.endswith("__meta__")`. -/
def isDataMember (name : String) : Bool :=
  (FOLDER_DATA_DIR ++ "/").data.isPrefixOf name.data
    && !(FOLDER_META_FILENAME.data.isSuffixOf name.data)

/-- `api._zip2folder_local`: the fast path.  Extract every `DATA/*` member
except `__meta__` files directly out of the archive, then write the
consolidated metadata, the local `__meta__` tables, and `COLLECTION.json`
exactly as the folder finalizer does.  `zip` is the archive's member list
(name, decompressed bytes); `jsonSer` serializes the collection dict. -/
def zip2folder_local (ds : ZipDataset) (zip : List (String × List Nat))
    (pqCdc pq : Table → List Nat) (jsonSer : Heap → PyDict → List Nat)
    (output : String) (fs : FS) : FS :=
  let levels := strip_zip_columns ds.fullLevels
  let lm := build_local_metadata levels
  let coll := ds.heap.get ds.collAddr   -- dataset.collection.copy()
  let fs1 := (zip.filter (fun m => isDataMember m.1)).foldl
    (fun f m => write_bytes f (output ++ "/" ++ m.1) m.2) fs
  let fs2 := (levels.enum).foldl
    (fun f p => write_bytes f
      (output ++ "/" ++ FOLDER_METADATA_DIR ++ "/level" ++ toString p.1 ++ ".parquet")
      (pqCdc p.2)) fs1
  let fs3 := lm.foldl
    (fun f p => write_bytes f (output ++ "/" ++ p.1 ++ FOLDER_META_FILENAME) (pq p.2)) fs2
  write_bytes fs3 (output ++ "/" ++ FOLDER_COLLECTION_FILENAME) (jsonSer ds.heap coll)

/-- The general path on the same archive: `plan_zip2folder`, execute every
task, `finalize`. -/
def zip2folder_general (strip : String → String) (ds : ZipDataset)
    (isRemote : String → Bool) (srcBytes : String → Option (List Nat))
    (pqCdc pq : Table → List Nat) (jsonSer : Heap → PyDict → List Nat)
    (outputExists loadOk : Bool) (source output : String) (fs : FS) :
    Except BridgeError FS :=
  match plan_zip2folder strip ds outputExists loadOk source output with
  | .error e => .error e
  | .ok plan =>
    match runTasks isRemote srcBytes fs plan.tasks with
    | .error e => .error (.otherError e)
    | .ok fs' =>
      .ok (finalize_to_folder pqCdc pq (jsonSer ds.heap plan.collection)
        output plan.levels plan.local_metadata fs')

instance : Inhabited Row := ⟨⟨"", "", 0, 0, "", none, none, none, none, none⟩⟩

/-- Column presence flags are read off the snapshot's schema. -/
def Dataset.hasSP (ds : Dataset) : Bool := ds.snapshot.cols.contains METADATA_SOURCE_PATH

def Dataset.hasSF (ds : Dataset) : Bool := ds.snapshot.cols.contains METADATA_SOURCE_FILE

/-! ### Concrete instances used by the counterexamples and witnesses -/

/-- Schema shared by the small example tables. -/
def baseCols : List String :=
  [COLUMN_ID, COLUMN_TYPE, METADATA_CURRENT_ID, METADATA_PARENT_ID]

def mkFileRow (i : String) (cid pid : Int) : Row :=
  { id := i, type := SAMPLE_TYPE_FILE, current_id := cid, parent_id := pid, gdal_vsi := "x" }

def mkFolderRow (i : String) (cid pid : Int) : Row :=
  { id := i, type := SAMPLE_TYPE_FOLDER, current_id := cid, parent_id := pid }

/-- A collection heap: address 0 is the collection dict, 1 the
`taco:pit_schema` dict, 2 its `root` dict with `n = 10`. -/
def exampleHeap : Heap :=
  ⟨[[("id", PyVal.vstr "ds1"), (PIT_SCHEMA_KEY, PyVal.vref 1)],
    [("root", PyVal.vref 2)],
    [("n", PyVal.vint 10)]]⟩

/-- Source view for the C3 counterexample.  Level 0 keeps old ids 3 and 4;
level 1 has a kept row (old id 8, parent 3) and a dropped row (old id 4,
parent 99: its parent was filtered out of the snapshot); level 2 has one
row whose parent is the dropped level-1 row (old parent id 4).  The key
`("", 4)` collides with the level-0 entry recorded for snapshot row 4. -/
def dsCollide : Dataset :=
  { rootN := 2, hasLevel1Joins := false, viewName := "v",
    snapshot := ⟨baseCols, [mkFileRow "r3" 3 3, mkFileRow "r4" 4 4]⟩,
    deeper := [⟨baseCols, [mkFileRow "e" 8 3, mkFileRow "d" 4 99]⟩,
               ⟨baseCols, [mkFileRow "c" 1 4]⟩],
    query := fun _ _ _ _ => [],
    sourcePath := "src.tacozip",
    heap := exampleHeap, collAddr := 0 }

/-- A well-behaved two-level view (all keys globally distinct). -/
def dsSmall : Dataset :=
  { rootN := 1, hasLevel1Joins := false, viewName := "v",
    snapshot := ⟨baseCols, [mkFileRow "a" 0 0]⟩,
    deeper := [⟨baseCols, [mkFileRow "b" 5 0]⟩],
    query := fun _ _ _ _ => [],
    sourcePath := "src.tacozip",
    heap := exampleHeap, collAddr := 0 }

/-- Levels exhibiting a FOLDER row at the deepest level: `build_local_metadata`
walks `range(len(levels) - 1)` and never visits it. -/
def levelsDeepFolder : List Table :=
  [⟨baseCols, [mkFolderRow "a" 0 0]⟩, ⟨baseCols, [mkFolderRow "b" 0 0]⟩]

/-- The plan produced on `dsSmall` (used by witnesses). -/
def planSmallOk : ExportPlan :=
  match (plan_export (fun x => x) dsSmall false "out" "T").1 with
  | .ok p => p
  | .error _ => ⟨[], "", "", [], [], ⟨[]⟩, 0⟩

def planSmallQs : List String := (plan_export (fun x => x) dsSmall false "out" "T").2

/-- The `(dest, bytes)` pair written to the filesystem by executing one
copy task (when its source is readable). -/
def taskWrite (isRemote : String → Bool) (srcBytes : String → Option (List Nat))
    (t : CopyTask) : String × List Nat :=
  (t.dest, read_bytes (isRemote t.src) ((srcBytes t.src).getD []) t.offset t.size)

/-- A one-file local archive dataset used by the C7 witness. -/
def dsZipSmall : ZipDataset :=
  { rootN := 1, hasLevel1Joins := false, viewName := "v",
    snapshot := ⟨baseCols, [mkFileRow "f1" 0 0]⟩,
    deeper := [], query := fun _ _ _ _ => [], sourcePath := "src.tacozip",
    heap := exampleHeap, collAddr := 0,
    fullLevels := [⟨baseCols, [mkFileRow "f1" 0 0]⟩] }

/-- The member list of the witness archive. -/
def zipSmall : List (String × List Nat) :=
  [("DATA/f1", [1, 2, 3]), ("COLLECTION.json", [9])]

/-- Byte contents of the witness archive's single data source. -/
def srcBytesSmall : String → Option (List Nat) :=
  fun s => if s == "x" then some [1, 2, 3] else none

/-! ## Theorems -/

/-! ### C10 — source-key fallback in `get_source_key` -/

/-- C10: for a row carrying both concat provenance columns, the source key
is `internal:source_path` only when that value is non-null and non-empty;
a null or empty `internal:source_path` falls back to
`internal:source_file` under the same condition, and otherwise the row is
keyed by the empty string, exactly like a row of a single-source dataset
(where both presence flags are off). -/
theorem get_source_key_fallback (r : Row) :
    (∀ s, r.source_path = some s → s ≠ "" → get_source_key r true true = s)
    ∧ ((r.source_path = none ∨ r.source_path = some "") →
        (∀ s, r.source_file = some s → s ≠ "" → get_source_key r true true = s)
        ∧ ((r.source_file = none ∨ r.source_file = some "") →
            get_source_key r true true = get_source_key r false false
            ∧ get_source_key r false false = "")) := by
  refine ⟨?_, ?_⟩
  · intro s hs hne
    simp [get_source_key, truthy, hs, hne]
  · intro hsp
    have hspt : truthy r.source_path = false := by
      rcases hsp with h | h <;> simp [truthy, h]
    refine ⟨?_, ?_⟩
    · intro s hs hne
      rcases hsp with h | h <;> simp [get_source_key, truthy, h, hs, hne]
    · intro hsf
      rcases hsp with h | h <;> rcases hsf with h' | h' <;>
        simp [get_source_key, truthy, h, h']

/-- Witness for C10 at a concrete row: null `internal:source_path`, so the
key falls back to `internal:source_file`. -/
theorem get_source_key_fallback_witness :
    get_source_key
      { id := "a", type := "FILE", current_id := 0, parent_id := 0,
        source_path := none, source_file := some "f.tacozip" } true true = "f.tacozip" :=
  ((get_source_key_fallback _).2 (Or.inl rfl)).1 "f.tacozip" rfl (by decide)

/-! ### C8 — `_vsi_to_copy_task` -/

theorem lastSplitComma_eq_none {l : List Char} (h : ',' ∉ l) : lastSplitComma l = none := by
  induction l with
  | nil => rfl
  | cons c rest ih =>
    have hc : c ≠ ',' := fun hc => h (hc ▸ List.mem_cons_self c rest)
    have hr : ',' ∉ rest := fun hr => h (List.mem_cons_of_mem c hr)
    simp [lastSplitComma, ih hr, hc]

theorem lastSplitComma_append {a b : List Char} (h : ',' ∉ b) :
    lastSplitComma (a ++ ',' :: b) = some (a, b) := by
  induction a with
  | nil => simp [lastSplitComma, lastSplitComma_eq_none h]
  | cons c rest ih => simp [lastSplitComma, ih]

theorem parse_vsi_subfile_spec (p o s : List Char) (ho : ',' ∉ o) (hs : ',' ∉ s) :
    parse_vsi_subfile (vsiSubfileMarker ++ (p ++ ',' :: (o ++ ',' :: s)))
      = (p, parseNatChars o, parseNatChars s) := by
  have h1 : p ++ ',' :: (o ++ ',' :: s) = (p ++ ',' :: o) ++ ',' :: s := by simp
  simp only [parse_vsi_subfile, List.drop_left, h1,
    lastSplitComma_append hs, lastSplitComma_append ho]

/-- C8: for a location string of the byte-range archive shape
`<marker><archive-path>,<offset>,<size>` (the two trailing fields
comma-free), `_vsi_to_copy_task` returns a task whose `src` is the archive
path with the reader's URL-scheme stripping applied and whose `offset` and
`size` are both set to the parsed decimal values; for any location not
starting with the marker it returns `src = L` with `offset = size =
null`. -/
theorem vsi_to_copy_task_spec (strip : String → String) (dest : String)
    (p o s : List Char) (ho : ',' ∉ o) (hs : ',' ∉ s) :
    vsi_to_copy_task strip (String.mk (vsiSubfileMarker ++ (p ++ ',' :: (o ++ ',' :: s)))) dest
      = { src := strip (String.mk p), dest := dest,
          offset := some (parseNatChars o), size := some (parseNatChars s) }
    ∧ ∀ vsi : String, vsiSubfileMarker.isPrefixOf vsi.data = false →
        vsi_to_copy_task strip vsi dest
          = { src := vsi, dest := dest, offset := none, size := none } := by
  constructor
  · have hpre : vsiSubfileMarker.isPrefixOf
        (String.mk (vsiSubfileMarker ++ (p ++ ',' :: (o ++ ',' :: s)))).data = true := by
      rw [List.isPrefixOf_iff_prefix]
      exact List.prefix_append _ _
    simp [vsi_to_copy_task, hpre, parse_vsi_subfile_spec p o s ho hs]
  · intro vsi hvsi
    simp [vsi_to_copy_task, hvsi]

/-- Witness for C8 at `"/vsisubfile/a.zip,7,9"` with identity stripping. -/
theorem vsi_to_copy_task_spec_witness :
    vsi_to_copy_task (fun x => x)
        (String.mk (vsiSubfileMarker ++ ("a.zip".data ++ ',' :: ("7".data ++ ',' :: "9".data))))
        "d"
      = { src := "a.zip", dest := "d", offset := some 7, size := some 9 } := by
  have h := (vsi_to_copy_task_spec (fun x => x) "d" "a.zip".data "7".data "9".data
    (by decide) (by decide)).1
  simpa using h

/-! ### C2 — `execute` byte semantics -/

/-- C2 counterexample: a local task with only `offset` set does *not* read
the whole object — `_read_local` seeks to the offset and reads to the end,
so the bytes written to `dest` are `[1, 2]`, not the whole `[0, 1, 2]`
(the behaviour the source's own unit test `test_read_offset_only` pins). -/
theorem execute_offset_only_not_whole :
    (execute (fun _ => false) (fun p => if p == "s" then some [0, 1, 2] else none)
        ⟨[], []⟩ { src := "s", dest := "d", offset := some 1, size := none }).map
      (fun fs => fs.read "d") = .ok (some [1, 2])
    ∧ some [1, 2] ≠ some [0, 1, 2] := ⟨rfl, by decide⟩

/-- C2 as amended: `execute` writes to `task.dest` exactly the bytes read
from `task.src` and creates the missing parent directories, leaving every
other path untouched; the bytes read are `[offset, offset+size)` when both
bounds are set and the whole object when neither is, but when exactly one
is set a remote source yields the whole object while a local source yields
the suffix from `offset` (offset only) or the first `size` bytes (size
only). -/
theorem execute_reads_writes (isRemote : String → Bool)
    (srcBytes : String → Option (List Nat)) (fs : FS) (t : CopyTask)
    (data : List Nat) (hsrc : srcBytes t.src = some data) :
    ∃ fs', execute isRemote srcBytes fs t = .ok fs'
      ∧ fs'.read t.dest = some (read_bytes (isRemote t.src) data t.offset t.size)
      ∧ (∀ q, q ≠ t.dest → fs'.read q = fs.read q)
      ∧ (∀ d ∈ parentDirs t.dest, d ∈ fs'.dirs)
      ∧ read_bytes (isRemote t.src) data t.offset t.size
          = match t.offset, t.size with
            | some o, some s => (data.drop o).take s
            | none, none => data
            | some o, none => if isRemote t.src then data else data.drop o
            | none, some s => if isRemote t.src then data else data.take s := by
  refine ⟨write_bytes fs t.dest (read_bytes (isRemote t.src) data t.offset t.size),
    ?_, ?_, ?_, ?_, ?_⟩
  · simp [execute, hsrc]
  · simp [FS.read, write_bytes]
  · intro q hq
    have hq' : (q == t.dest) = false := beq_eq_false_iff_ne.mpr hq
    simp [FS.read, write_bytes, List.lookup, hq']
  · intro d hd
    simp [write_bytes, hd]
  · rcases ho : t.offset with _ | o <;> rcases hs : t.size with _ | s <;>
      cases hrem : isRemote t.src <;>
      simp [read_bytes, read_remote, read_local, hrem]

/-- Witness for C2 (amended) at a concrete local task with both bounds
set. -/
theorem execute_reads_writes_witness :
    (fun p => if p == "s" then some [9, 8, 7, 6] else none : String → Option (List Nat)) "s"
        = some [9, 8, 7, 6]
    ∧ ∃ fs', execute (fun _ => false) (fun p => if p == "s" then some [9, 8, 7, 6] else none)
        ⟨[], []⟩ { src := "s", dest := "out/DATA/f", offset := some 1, size := some 2 } = .ok fs'
      ∧ fs'.read "out/DATA/f"
          = some (read_bytes false [9, 8, 7, 6] (some 1) (some 2))
      ∧ (∀ q, q ≠ "out/DATA/f" → fs'.read q = (⟨[], []⟩ : FS).read q)
      ∧ (∀ d ∈ parentDirs "out/DATA/f", d ∈ fs'.dirs)
      ∧ read_bytes false [9, 8, 7, 6] (some 1) (some 2)
          = (([9, 8, 7, 6] : List Nat).drop 1).take 2 :=
  ⟨by decide,
   execute_reads_writes (fun _ => false) (fun p => if p == "s" then some [9, 8, 7, 6] else none)
     ⟨[], []⟩ { src := "s", dest := "out/DATA/f", offset := some 1, size := some 2 }
     [9, 8, 7, 6] (by decide)⟩

/-! ### C1 — `prepare_collection` -/

theorem lookup_dictSet_self (d : PyDict) (k : String) (v : PyVal) :
    (dictSet d k v).lookup k = some v := by
  induction d with
  | nil => simp [dictSet, List.lookup]
  | cons p rest ih =>
    by_cases h : p.1 = k
    · have hb : (p.1 == k) = true := beq_iff_eq.mpr h
      simp [dictSet, hb, List.lookup]
    · have hb : (p.1 == k) = false := beq_eq_false_iff_ne.mpr h
      have hb' : (k == p.1) = false := beq_eq_false_iff_ne.mpr (Ne.symm h)
      simp [dictSet, hb, List.lookup, hb', ih]

theorem lookup_dictSet_ne (d : PyDict) (k k' : String) (v : PyVal) (h : k' ≠ k) :
    (dictSet d k v).lookup k' = d.lookup k' := by
  have h1 : (k' == k) = false := beq_eq_false_iff_ne.mpr h
  induction d with
  | nil => simp [dictSet, List.lookup, h1]
  | cons p rest ih =>
    by_cases h2 : p.1 = k
    · have hb : (p.1 == k) = true := beq_iff_eq.mpr h2
      have hb2 : (k' == p.1) = false := by rw [h2]; exact h1
      simp [dictSet, hb, List.lookup, h1, hb2]
    · have hb : (p.1 == k) = false := beq_eq_false_iff_ne.mpr h2
      cases hkp : (k' == p.1) <;> simp [dictSet, hb, List.lookup, hkp, ih]

theorem heap_get_set_self (h : Heap) (a : Nat) (d : PyDict) (ha : a < h.objs.length) :
    (h.set a d).get a = d := by
  simp [Heap.set, Heap.get, List.getD_eq_getElem?_getD, List.getElem?_set_self, ha]

theorem heap_get_set_ne (h : Heap) (a b : Nat) (d : PyDict) (hab : b ≠ a) :
    (h.set a d).get b = h.get b := by
  simp [Heap.set, Heap.get, List.getD_eq_getElem?_getD, List.getElem?_set_ne (Ne.symm hab)]

theorem heap_get_alloc_lt (h : Heap) (d : PyDict) (a : Nat) (ha : a < h.objs.length) :
    (h.alloc d).1.get a = h.get a := by
  simp [Heap.alloc, Heap.get, List.getD_eq_getElem?_getD, List.getElem?_append_left ha]

theorem heap_get_alloc_new (h : Heap) (d : PyDict) :
    (h.alloc d).1.get h.objs.length = d := by
  simp [Heap.alloc, Heap.get, List.getD_eq_getElem?_getD]

/-- C1 counterexample: `prepare_collection` only *shallow*-copies the
collection (`dataset.collection.copy()`), so writing
`collection["taco:pit_schema"]["root"]["n"]` mutates the nested dict
shared with the source view's own collection.  On `exampleHeap` (whose
collection at address 0 points at the pit-schema dict 1, whose `root`
points at dict 2 with `n = 10`), running the call with root count 5
changes the original nested `root` dict's `n` to 5. -/
theorem prepare_collection_mutates_source :
    (exampleHeap.get 0).lookup PIT_SCHEMA_KEY = some (PyVal.vref 1)
    ∧ (exampleHeap.get 1).lookup "root" = some (PyVal.vref 2)
    ∧ (exampleHeap.get 2).lookup "n" = some (PyVal.vint 10)
    ∧ ((prepare_collection exampleHeap 0 (PyVal.vint 5) "T").map
        (fun r => ((r.1.get 0).lookup PIT_SCHEMA_KEY, (r.1.get 1).lookup "root",
          (r.1.get 2).lookup "n")))
      = some (some (PyVal.vref 1), some (PyVal.vref 2), some (PyVal.vint 5))
    ∧ some (PyVal.vint 5) ≠ some (PyVal.vint 10) :=
  ⟨rfl, rfl, rfl, rfl, by decide⟩

/-- C1 as amended: `prepare_collection` *shallow*-copies the view's
collection and returns a manifest whose `taco:pit_schema.root.n` equals
the view's root count, whose `taco:subset_of` is the original collection's
`id` (or `"unknown"` when absent) and whose `taco:subset_date` is the
injected clock reading; the original top-level collection dict object is
left unchanged, but the nested `taco:pit_schema.root` dict is shared with
the shallow copy and its `n` entry is overwritten in place in the source
view's collection as well. -/
theorem prepare_collection_shallow_copy (h : Heap) (collAddr pitAddr rootAddr : Nat)
    (rootN : PyVal) (now : String)
    (hColl : collAddr < h.objs.length)
    (hPitLt : pitAddr < h.objs.length)
    (hRootLt : rootAddr < h.objs.length)
    (hRootColl : rootAddr ≠ collAddr)
    (hPit : (h.get collAddr).lookup PIT_SCHEMA_KEY = some (PyVal.vref pitAddr))
    (hRoot : (h.get pitAddr).lookup "root" = some (PyVal.vref rootAddr)) :
    ∃ h', prepare_collection h collAddr rootN now = some (h', h.objs.length)
      ∧ ((h'.get h.objs.length).lookup PIT_SCHEMA_KEY = some (PyVal.vref pitAddr))
      ∧ ((h'.get pitAddr).lookup "root" = some (PyVal.vref rootAddr))
      ∧ ((h'.get rootAddr).lookup "n" = some rootN)
      ∧ ((h'.get h.objs.length).lookup SUBSET_OF_KEY
          = some (((h.get collAddr).lookup "id").getD (PyVal.vstr "unknown")))
      ∧ ((h'.get h.objs.length).lookup SUBSET_DATE_KEY = some (PyVal.vstr now))
      ∧ h'.get collAddr = h.get collAddr
      ∧ h'.get rootAddr = dictSet (h.get rootAddr) "n" rootN := by
  have hNe : rootAddr ≠ h.objs.length := Nat.ne_of_lt hRootLt
  have hCollNe : collAddr ≠ h.objs.length := Nat.ne_of_lt hColl
  have hPitNe : pitAddr ≠ h.objs.length := Nat.ne_of_lt hPitLt
  have hsnd : (h.alloc (h.get collAddr)).2 = h.objs.length := rfl
  have halloc1 : (h.alloc (h.get collAddr)).1.get pitAddr = h.get pitAddr :=
    heap_get_alloc_lt h _ pitAddr hPitLt
  have halloc2 : (h.alloc (h.get collAddr)).1.get rootAddr = h.get rootAddr :=
    heap_get_alloc_lt h _ rootAddr hRootLt
  have halloc3 : (h.alloc (h.get collAddr)).1.get collAddr = h.get collAddr :=
    heap_get_alloc_lt h _ collAddr hColl
  have hallocNew : (h.alloc (h.get collAddr)).1.get h.objs.length = h.get collAddr :=
    heap_get_alloc_new h _
  have hlen1 : (h.alloc (h.get collAddr)).1.objs.length = h.objs.length + 1 := by
    simp [Heap.alloc]
  have e1 : ((h.alloc (h.get collAddr)).1.get pitAddr).lookup "root"
      = some (PyVal.vref rootAddr) := by rw [halloc1]; exact hRoot
  -- facts about the heap after the in-place root mutation
  have h2new : ((h.alloc (h.get collAddr)).1.set rootAddr
      (dictSet ((h.alloc (h.get collAddr)).1.get rootAddr) "n" rootN)).get h.objs.length
      = h.get collAddr := by
    rw [heap_get_set_ne _ _ _ _ (Ne.symm hNe), hallocNew]
  have h2coll : ((h.alloc (h.get collAddr)).1.set rootAddr
      (dictSet ((h.alloc (h.get collAddr)).1.get rootAddr) "n" rootN)).get collAddr
      = h.get collAddr := by
    rw [heap_get_set_ne _ _ _ _ (fun he => hRootColl he.symm), halloc3]
  have h2root : ((h.alloc (h.get collAddr)).1.set rootAddr
      (dictSet ((h.alloc (h.get collAddr)).1.get rootAddr) "n" rootN)).get rootAddr
      = dictSet (h.get rootAddr) "n" rootN := by
    rw [heap_get_set_self _ _ _ (by rw [hlen1]; omega), halloc2]
  have h2pit : ((h.alloc (h.get collAddr)).1.set rootAddr
      (dictSet ((h.alloc (h.get collAddr)).1.get rootAddr) "n" rootN)).get pitAddr
      = (if pitAddr = rootAddr then dictSet (h.get rootAddr) "n" rootN
         else h.get pitAddr) := by
    by_cases hpr : pitAddr = rootAddr
    · rw [if_pos hpr, hpr, h2root]
    · rw [if_neg hpr, heap_get_set_ne _ _ _ _ hpr, halloc1]
  have h2len : ((h.alloc (h.get collAddr)).1.set rootAddr
      (dictSet ((h.alloc (h.get collAddr)).1.get rootAddr) "n" rootN)).objs.length
      = h.objs.length + 1 := by
    simp [Heap.set, hlen1]
  have hex : prepare_collection h collAddr rootN now
      = some (((h.alloc (h.get collAddr)).1.set rootAddr
          (dictSet ((h.alloc (h.get collAddr)).1.get rootAddr) "n" rootN)).set
          (h.alloc (h.get collAddr)).2
          (dictSet (dictSet ((((h.alloc (h.get collAddr)).1.set rootAddr
              (dictSet ((h.alloc (h.get collAddr)).1.get rootAddr) "n" rootN))).get
              (h.alloc (h.get collAddr)).2) SUBSET_OF_KEY
              (((h.get collAddr).lookup "id").getD (PyVal.vstr "unknown")))
            SUBSET_DATE_KEY (PyVal.vstr now)),
        (h.alloc (h.get collAddr)).2) := by
    simp only [prepare_collection, hPit, e1]
  refine ⟨((h.alloc (h.get collAddr)).1.set rootAddr
      (dictSet ((h.alloc (h.get collAddr)).1.get rootAddr) "n" rootN)).set
      (h.alloc (h.get collAddr)).2
      (dictSet (dictSet ((((h.alloc (h.get collAddr)).1.set rootAddr
          (dictSet ((h.alloc (h.get collAddr)).1.get rootAddr) "n" rootN))).get
          (h.alloc (h.get collAddr)).2) SUBSET_OF_KEY
          (((h.get collAddr).lookup "id").getD (PyVal.vstr "unknown")))
        SUBSET_DATE_KEY (PyVal.vstr now)),
    ?_, ?_, ?_, ?_, ?_, ?_, ?_, ?_⟩
  · rw [hex, hsnd]
  · rw [hsnd, heap_get_set_self _ _ _ (by rw [h2len]; omega), h2new]
    rw [lookup_dictSet_ne _ _ _ _ (by decide), lookup_dictSet_ne _ _ _ _ (by decide)]
    exact hPit
  · rw [hsnd, heap_get_set_ne _ _ _ _ hPitNe, h2pit]
    by_cases hpr : pitAddr = rootAddr
    · rw [if_pos hpr, lookup_dictSet_ne _ _ _ _ (by decide)]
      exact hpr ▸ hRoot
    · rw [if_neg hpr]
      exact hRoot
  · rw [hsnd, heap_get_set_ne _ _ _ _ hNe, h2root, lookup_dictSet_self]
  · rw [hsnd, heap_get_set_self _ _ _ (by rw [h2len]; omega), h2new]
    rw [lookup_dictSet_ne _ _ _ _ (by decide), lookup_dictSet_self]
  · rw [hsnd, heap_get_set_self _ _ _ (by rw [h2len]; omega)]
    rw [lookup_dictSet_self]
  · rw [hsnd, heap_get_set_ne _ _ _ _ hCollNe, h2coll]
  · rw [hsnd, heap_get_set_ne _ _ _ _ hNe, h2root]

/-- Witness for C1 (amended) on `exampleHeap`. -/
theorem prepare_collection_shallow_copy_witness :
    (0 < exampleHeap.objs.length ∧ 1 < exampleHeap.objs.length
      ∧ 2 < exampleHeap.objs.length ∧ (2 : Nat) ≠ 0
      ∧ (exampleHeap.get 0).lookup PIT_SCHEMA_KEY = some (PyVal.vref 1)
      ∧ (exampleHeap.get 1).lookup "root" = some (PyVal.vref 2))
    ∧ ∃ h', prepare_collection exampleHeap 0 (PyVal.vint 7) "2024-01-01T00:00:00+00:00"
          = some (h', exampleHeap.objs.length)
        ∧ ((h'.get exampleHeap.objs.length).lookup PIT_SCHEMA_KEY = some (PyVal.vref 1))
        ∧ ((h'.get 1).lookup "root" = some (PyVal.vref 2))
        ∧ ((h'.get 2).lookup "n" = some (PyVal.vint 7))
        ∧ ((h'.get exampleHeap.objs.length).lookup SUBSET_OF_KEY
            = some (((exampleHeap.get 0).lookup "id").getD (PyVal.vstr "unknown")))
        ∧ ((h'.get exampleHeap.objs.length).lookup SUBSET_DATE_KEY
            = some (PyVal.vstr "2024-01-01T00:00:00+00:00"))
        ∧ h'.get 0 = exampleHeap.get 0
        ∧ h'.get 2 = dictSet (exampleHeap.get 2) "n" (PyVal.vint 7) :=
  ⟨⟨by decide, by decide, by decide, by decide, rfl, rfl⟩,
   prepare_collection_shallow_copy exampleHeap 0 1 2 (PyVal.vint 7)
     "2024-01-01T00:00:00+00:00" (by decide) (by decide) (by decide) (by decide) rfl rfl⟩

/-! ### C6 — `plan_export` guards -/

/-- C6: `plan_export` fails with a `PlanError` (performing no writes — the
planner has no write effect at all) whenever the output already exists,
the view's root count is zero, or the view carries joins at levels ≥ 1;
and in the output-already-exists case it fails with the query log empty,
i.e. before any read of the view. -/
theorem plan_export_guards (strip : String → String) (ds : Dataset)
    (outputExists : Bool) (output now : String) :
    ((outputExists = true ∨ ds.rootN = 0 ∨ ds.hasLevel1Joins = true) →
      ∃ msg, (plan_export strip ds outputExists output now).1 = .error (.planError msg))
    ∧ (outputExists = true →
        plan_export strip ds outputExists output now
          = (.error (.planError ("Output already exists: " ++ output)), [])) := by
  constructor
  · intro hcase
    by_cases ho : outputExists = true
    · exact ⟨"Output already exists: " ++ output, by simp [plan_export, ho]⟩
    · have ho' : outputExists = false := by
        cases outputExists
        · rfl
        · exact absurd rfl ho
      by_cases hr : ds.rootN = 0
      · refine ⟨"Dataset is empty", ?_⟩
        simp [plan_export, ho', hr]
      · have hr' : (ds.rootN == 0) = false := beq_eq_false_iff_ne.mpr hr
        have hj : ds.hasLevel1Joins = true := by
          rcases hcase with h | h | h
          · exact absurd h ho
          · exact absurd h hr
          · exact h
        refine ⟨"Cannot export dataset with level1+ JOINs", ?_⟩
        simp [plan_export, ho', hr', hj]
  · intro h
    simp [plan_export, h]

/-- Witness for C6: the plan-exists guard on a concrete view, raised with
an empty view-query log. -/
theorem plan_export_guards_witness :
    plan_export (fun x => x) dsSmall true "out" "2024-01-01T00:00:00+00:00"
      = (.error (.planError ("Output already exists: " ++ "out")), []) :=
  (plan_export_guards (fun x => x) dsSmall true "out" "2024-01-01T00:00:00+00:00").2 rfl

/-! ### C9 — `plan_folder2zip` and the `DATA/` scan -/

theorem filterMap_guard {α β : Type} (p : α → Bool) (g : α → β) (l : List α) :
    l.filterMap (fun e => if p e then some (g e) else none) = (l.filter p).map g := by
  induction l with
  | nil => rfl
  | cons a restl ih =>
    by_cases h : p a <;> simp [List.filterMap_cons, List.filter_cons, h, ih]

/-- C9: with the earlier preconditions satisfied (fresh output, source
folder present, `COLLECTION.json` parses, `METADATA/` holds at least one
`level*.parquet`, and `DATA/` exists), `plan_folder2zip` fails with the
`PlanError` message `"No data files found: <data dir>"` exactly when the
recursive `DATA/` scan finds zero regular files other than `__meta__`;
otherwise it returns a `Folder2ZipPlan` with one entry per found file
whose archive path is `DATA/<path-relative-to-DATA>`. -/
theorem plan_folder2zip_scan (source output : String) (coll : PyDict)
    (levelFiles : List Table) (walk : List WalkEntry)
    (hlf : levelFiles.isEmpty = false) :
    (plan_folder2zip source output false true true (some coll) true levelFiles true walk
        = .error (.planError ("No data files found: " ++ (source ++ "/" ++ FOLDER_DATA_DIR)))
      ↔ walk.filter (fun e => e.isFile && !(baseName e.rel == FOLDER_META_FILENAME)) = [])
    ∧ (∀ v, walk.filter (fun e => e.isFile && !(baseName e.rel == FOLDER_META_FILENAME))
          = v → v ≠ [] →
        ∃ plan, plan_folder2zip source output false true true (some coll) true levelFiles
            true walk = .ok plan
          ∧ plan.entries = v.map (fun e =>
              { src := source ++ "/" ++ FOLDER_DATA_DIR ++ "/" ++ e.rel,
                arc_path := FOLDER_DATA_DIR ++ "/" ++ e.rel : ZipEntry })
          ∧ plan.entries.length = v.length) := by
  have hscan : scan_folder_files source true walk
      = (let v := walk.filter (fun e => e.isFile && !(baseName e.rel == FOLDER_META_FILENAME))
         if v.isEmpty then
           .error (.planError ("No data files found: " ++ (source ++ "/" ++ FOLDER_DATA_DIR)))
         else .ok (v.map (fun e =>
           { src := source ++ "/" ++ FOLDER_DATA_DIR ++ "/" ++ e.rel,
             arc_path := FOLDER_DATA_DIR ++ "/" ++ e.rel : ZipEntry }))) := by
    simp only [scan_folder_files, Bool.not_true, Bool.false_eq_true, if_false,
      filterMap_guard]
    cases hv : walk.filter (fun e => e.isFile && !(baseName e.rel == FOLDER_META_FILENAME)) <;>
      simp [hv]
  constructor
  · cases hv : walk.filter (fun e => e.isFile && !(baseName e.rel == FOLDER_META_FILENAME)) with
    | nil =>
      simp only [plan_folder2zip, hlf, hscan, hv]
      simp
    | cons a rest =>
      simp only [plan_folder2zip, hlf, hscan, hv]
      simp
  · intro v hv hne
    cases v with
    | nil => exact absurd rfl hne
    | cons a rest =>
      have hok : plan_folder2zip source output false true true (some coll) true levelFiles
          true walk
          = .ok { entries := (a :: rest).map (fun e =>
                    { src := source ++ "/" ++ FOLDER_DATA_DIR ++ "/" ++ e.rel,
                      arc_path := FOLDER_DATA_DIR ++ "/" ++ e.rel : ZipEntry }),
                  source := source, output := output, levels := levelFiles,
                  local_metadata := build_local_metadata levelFiles, collection := coll } := by
        simp only [plan_folder2zip, hlf, hscan, hv]
        simp
      exact ⟨_, hok, rfl, by simp⟩

/-- Witness for C9 at a concrete folder walk containing one payload file,
one `__meta__` file, and one directory. -/
theorem plan_folder2zip_scan_witness :
    ([⟨"s0", false⟩, ⟨"s0/img.tif", true⟩, ⟨"s0/__meta__", true⟩] : List WalkEntry).filter
        (fun e => e.isFile && !(baseName e.rel == FOLDER_META_FILENAME))
      = [⟨"s0/img.tif", true⟩]
    ∧ ∃ plan, plan_folder2zip "f" "out.tacozip" false true true (some []) true
          [⟨baseCols, []⟩] true [⟨"s0", false⟩, ⟨"s0/img.tif", true⟩, ⟨"s0/__meta__", true⟩]
        = .ok plan
      ∧ plan.entries = [({ src := "f" ++ "/" ++ FOLDER_DATA_DIR ++ "/" ++ "s0/img.tif", arc_path := FOLDER_DATA_DIR ++ "/" ++ "s0/img.tif" } : ZipEntry)]
      ∧ plan.entries.length = 1 :=
  ⟨by decide,
   by
    have h := (plan_folder2zip_scan "f" "out.tacozip" [] [⟨baseCols, []⟩]
      [⟨"s0", false⟩, ⟨"s0/img.tif", true⟩, ⟨"s0/__meta__", true⟩] (by decide)).2
      [⟨"s0/img.tif", true⟩] (by decide) (by decide)
    simpa using h⟩

/-! ### C4 — density and the level-0 self-parent convention -/

theorem dropCellsOf_current (c : String) (r : Row) :
    (dropCellsOf c r).current_id = r.current_id := by
  simp only [dropCellsOf]
  split_ifs <;> rfl

theorem dropCellsOf_parent (c : String) (r : Row) :
    (dropCellsOf c r).parent_id = r.parent_id := by
  simp only [dropCellsOf]
  split_ifs <;> rfl

theorem strip_columns_map {α : Type} (f : Row → α)
    (hf : ∀ c r, f (dropCellsOf c r) = f r) :
    ∀ (columns : List String) (t : Table),
      (strip_columns t columns).rows.map f = t.rows.map f := by
  intro columns
  induction columns with
  | nil => intro t; rfl
  | cons c rest ih =>
    intro t
    show (List.foldl _ (if t.cols.contains c then _ else t) rest).rows.map f = _
    by_cases h : t.cols.contains c
    · rw [if_pos h]
      rw [show (List.foldl _ _ rest) = strip_columns ⟨t.cols.erase c, t.rows.map (dropCellsOf c)⟩ rest from rfl]
      rw [ih]
      simp only [List.map_map]
      exact List.map_congr_left (fun r _ => hf c r)
    · rw [if_neg h]
      exact ih t

theorem strip_columns_length (columns : List String) (t : Table) :
    (strip_columns t columns).rows.length = t.rows.length := by
  have h := strip_columns_map (fun r => r.current_id)
    (fun c r => dropCellsOf_current c r) columns t
  have h1 := congrArg List.length h
  simpa using h1

theorem intRange_length (n : Nat) : (intRange n).length = n := by
  simp [intRange]

theorem zipset_map_current : ∀ (rs : List Row) (a b : List Int),
    a.length = rs.length → b.length = rs.length →
    ((rs.zip (a.zip b)).map
      (fun p => { p.1 with current_id := p.2.1, parent_id := p.2.2 })).map (·.current_id) = a := by
  intro rs
  induction rs with
  | nil =>
    intro a b ha _
    cases a
    · rfl
    · simp at ha
  | cons r rest ih =>
    intro a b ha hb
    cases a with
    | nil => simp at ha
    | cons x xs =>
      cases b with
      | nil => simp at hb
      | cons y ys =>
        simp only [List.zip_cons_cons, List.map_cons]
        rw [ih xs ys (by simpa using ha) (by simpa using hb)]

theorem zipset_map_parent : ∀ (rs : List Row) (a b : List Int),
    a.length = rs.length → b.length = rs.length →
    ((rs.zip (a.zip b)).map
      (fun p => { p.1 with current_id := p.2.1, parent_id := p.2.2 })).map (·.parent_id) = b := by
  intro rs
  induction rs with
  | nil =>
    intro a b _ hb
    cases b
    · rfl
    · simp at hb
  | cons r rest ih =>
    intro a b ha hb
    cases a with
    | nil => simp at ha
    | cons x xs =>
      cases b with
      | nil => simp at hb
      | cons y ys =>
        simp only [List.zip_cons_cons, List.map_cons]
        rw [ih xs ys (by simpa using ha) (by simpa using hb)]

theorem reindex_table_map_current (t : Table) (a b : List Int)
    (ha : a.length = t.rows.length) (hb : b.length = t.rows.length) :
    (reindex_table t a b).rows.map (·.current_id) = a :=
  zipset_map_current t.rows a b ha hb

theorem reindex_table_map_parent (t : Table) (a b : List Int)
    (ha : a.length = t.rows.length) (hb : b.length = t.rows.length) :
    (reindex_table t a b).rows.map (·.parent_id) = b :=
  zipset_map_parent t.rows a b ha hb

theorem reindex_table_length (t : Table) (a b : List Int)
    (ha : a.length = t.rows.length) (hb : b.length = t.rows.length) :
    (reindex_table t a b).rows.length = t.rows.length := by
  have h := congrArg List.length (reindex_table_map_current t a b ha hb)
  simpa [ha] using h

/-- One processed level of the reindexing loop is densely renumbered. -/
theorem processDeeper_density (hSP hSF : Bool) :
    ∀ (ts : List Table) (m : PMap), ∀ e ∈ processDeeper hSP hSF m ts,
      e.1.rows.map (·.current_id) = intRange e.1.rows.length := by
  intro ts
  induction ts with
  | nil => intro m e he; simp [processDeeper] at he
  | cons t rest ih =>
    intro m e he
    simp only [processDeeper, List.mem_cons] at he
    rcases he with he | he
    · subst he
      have hlen : (intRange (filterLevel hSP hSF m t.rows).length).length
          = ((filterLevel hSP hSF m t.rows).map Prod.fst).length := by
        simp [intRange_length]
      have hlen2 : ((filterLevel hSP hSF m t.rows).map Prod.snd).length
          = ((filterLevel hSP hSF m t.rows).map Prod.fst).length := by simp
      have hcur := strip_columns_map (fun r => r.current_id)
        (fun c r => dropCellsOf_current c r) EXPORT_STRIP_COLUMNS
        (reindex_table ⟨t.cols, (filterLevel hSP hSF m t.rows).map Prod.fst⟩
          (intRange ((filterLevel hSP hSF m t.rows).map Prod.fst).length)
          ((filterLevel hSP hSF m t.rows).map Prod.snd))
      have hre := reindex_table_map_current
        ⟨t.cols, (filterLevel hSP hSF m t.rows).map Prod.fst⟩
        (intRange ((filterLevel hSP hSF m t.rows).map Prod.fst).length)
        ((filterLevel hSP hSF m t.rows).map Prod.snd)
        (by simp [intRange_length]) (by simp)
      have hlen3 : (strip_columns
          (reindex_table ⟨t.cols, (filterLevel hSP hSF m t.rows).map Prod.fst⟩
            (intRange ((filterLevel hSP hSF m t.rows).map Prod.fst).length)
            ((filterLevel hSP hSF m t.rows).map Prod.snd))).rows.length
          = ((filterLevel hSP hSF m t.rows).map Prod.fst).length := by
        rw [strip_columns_length, reindex_table_length _ _ _ (by simp [intRange_length]) (by simp)]
      simp only [List.length_map] at hcur hre hlen3 ⊢
      rw [hcur, hre, hlen3]
    · exact ih _ e he

/-- C4: for every `ExportPlan` produced by `plan_export`, every level's
`internal:current_id` column equals `0..N-1` in row order, and at level 0
the `internal:parent_id` column equals the `internal:current_id` column
(self-parent convention). -/
theorem plan_export_ok_levels (strip : String → String) (ds : Dataset)
    (outputExists : Bool) (output now : String) (plan : ExportPlan) (qs : List String)
    (hok : plan_export strip ds outputExists output now = (.ok plan, qs)) :
    plan.levels = (reindex_metadata_from_snapshot ds.snapshot ds.deeper).1 := by
  simp only [plan_export] at hok
  split at hok
  · exact absurd (congrArg Prod.fst hok) (by simp)
  · split at hok
    · exact absurd (congrArg Prod.fst hok) (by simp)
    · split at hok
      · exact absurd (congrArg Prod.fst hok) (by simp)
      · split at hok
        · exact absurd (congrArg Prod.fst hok) (by simp)
        · have h1 := congrArg Prod.fst hok
          simp only at h1
          have h2 : ExportPlan.levels _ = plan.levels := congrArg ExportPlan.levels
            (Except.ok.inj h1)
          exact h2.symm

theorem export_levels_density (strip : String → String) (ds : Dataset)
    (outputExists : Bool) (output now : String) (plan : ExportPlan) (qs : List String)
    (hok : plan_export strip ds outputExists output now = (.ok plan, qs)) :
    (∀ t ∈ plan.levels, t.rows.map (·.current_id) = intRange t.rows.length)
    ∧ (∀ t0, plan.levels.head? = some t0 →
        t0.rows.map (·.parent_id) = t0.rows.map (·.current_id)) := by
  have hlv := plan_export_ok_levels strip ds outputExists output now plan qs hok
  have hcur0 := reindex_table_map_current ds.snapshot
    (intRange ds.snapshot.rows.length) (intRange ds.snapshot.rows.length)
    (by simp [intRange_length]) (by simp [intRange_length])
  have hpar0 := reindex_table_map_parent ds.snapshot
    (intRange ds.snapshot.rows.length) (intRange ds.snapshot.rows.length)
    (by simp [intRange_length]) (by simp [intRange_length])
  have hlen0 : (strip_columns (reindex_table ds.snapshot
      (intRange ds.snapshot.rows.length) (intRange ds.snapshot.rows.length))).rows.length
      = ds.snapshot.rows.length := by
    rw [strip_columns_length,
      reindex_table_length _ _ _ (by simp [intRange_length]) (by simp [intRange_length])]
  have hmap0c := strip_columns_map (fun r => r.current_id)
    (fun c r => dropCellsOf_current c r) EXPORT_STRIP_COLUMNS
    (reindex_table ds.snapshot (intRange ds.snapshot.rows.length)
      (intRange ds.snapshot.rows.length))
  have hmap0p := strip_columns_map (fun r => r.parent_id)
    (fun c r => dropCellsOf_parent c r) EXPORT_STRIP_COLUMNS
    (reindex_table ds.snapshot (intRange ds.snapshot.rows.length)
      (intRange ds.snapshot.rows.length))
  constructor
  · intro t ht
    rw [hlv] at ht
    simp only [reindex_metadata_from_snapshot, List.mem_cons] at ht
    rcases ht with ht | ht
    · subst ht
      rw [hmap0c, hcur0, hlen0]
    · simp only [List.mem_map] at ht
      obtain ⟨e, he, hte⟩ := ht
      rw [← hte]
      exact processDeeper_density _ _ _ _ e he
  · intro t0 ht0
    rw [hlv] at ht0
    simp only [reindex_metadata_from_snapshot, List.head?_cons, Option.some.injEq] at ht0
    rw [← ht0]
    rw [hmap0c, hmap0p, hcur0, hpar0]

/-- Witness for C4 on the concrete view `dsSmall`. -/
theorem export_levels_density_witness :
    plan_export (fun x => x) dsSmall false "out" "T" = (.ok planSmallOk, planSmallQs)
    ∧ (∀ t ∈ planSmallOk.levels, t.rows.map (·.current_id) = intRange t.rows.length)
    ∧ (∀ t0, planSmallOk.levels.head? = some t0 →
        t0.rows.map (·.parent_id) = t0.rows.map (·.current_id)) :=
  ⟨rfl,
   (export_levels_density (fun x => x) dsSmall false "out" "T" planSmallOk planSmallQs rfl).1,
   (export_levels_density (fun x => x) dsSmall false "out" "T" planSmallOk planSmallQs rfl).2⟩

/-! ### C3 — tree integrity of the reindexed levels

The association-list layer: under key distinctness, `List.lookup` agrees
with membership, and membership in the accumulated mapping decomposes into
membership in one level's entries. -/

theorem plookup_eq_some_iff (l : PMap) (hnd : (l.map Prod.fst).Nodup)
    (k : String × Int) (v : Int) : l.lookup k = some v ↔ (k, v) ∈ l := by
  induction l with
  | nil => simp [List.lookup]
  | cons p rest ih =>
    obtain ⟨k', v'⟩ := p
    simp only [List.map_cons, List.nodup_cons] at hnd
    cases hkk : k == k' with
    | true =>
      have hk : k = k' := eq_of_beq hkk
      subst hk
      simp only [List.lookup, hkk]
      constructor
      · intro hv
        have hv' : v' = v := Option.some.inj hv
        subst hv'
        exact List.mem_cons_self _ _
      · intro hmem
        rcases List.mem_cons.mp hmem with heq | hmem'
        · have hv := congrArg Prod.snd heq
          simp only at hv
          rw [hv]
        · exact absurd (List.mem_map_of_mem Prod.fst hmem') hnd.1
    | false =>
      have hk : k ≠ k' := ne_of_beq_false hkk
      simp only [List.lookup, hkk, ih hnd.2]
      constructor
      · intro hmem
        exact List.mem_cons_of_mem _ hmem
      · intro hmem
        rcases List.mem_cons.mp hmem with heq | hmem'
        · exact absurd (congrArg Prod.fst heq) hk
        · exact hmem'

theorem extendMap_mFor (hasSP hasSF : Bool) (kepts : List (List Row)) (fr : List Row) :
    extendMap hasSP hasSF (mFor hasSP hasSF kepts) fr = mFor hasSP hasSF (kepts ++ [fr]) := by
  simp [extendMap, mFor]

theorem mFor_single (hasSP hasSF : Bool) (rows : List Row) :
    extendMap hasSP hasSF [] rows = mFor hasSP hasSF [rows] := by
  simp [extendMap, mFor]

theorem mem_mFor (hasSP hasSF : Bool) (kepts : List (List Row)) (k : String × Int) (v : Int) :
    (k, v) ∈ mFor hasSP hasSF kepts ↔ ∃ rs ∈ kepts, (k, v) ∈ entriesFor hasSP hasSF rs := by
  simp only [mFor, List.mem_flatten, List.mem_reverse, List.mem_map]
  constructor
  · rintro ⟨s, ⟨rs, hrs, hs⟩, hmem⟩
    exact ⟨rs, hrs, by rw [← hs] at hmem; simpa using hmem⟩
  · rintro ⟨rs, hrs, hmem⟩
    exact ⟨(entriesFor hasSP hasSF rs).reverse, ⟨rs, hrs, rfl⟩, by simpa using hmem⟩

theorem mem_entriesFor (hasSP hasSF : Bool) (rows : List Row) (k : String × Int) (v : Int) :
    (k, v) ∈ entriesFor hasSP hasSF rows
      ↔ ∃ i : Nat, ∃ r, rows[i]? = some r ∧ levelKey hasSP hasSF r = k ∧ v = (i : Int) := by
  simp only [entriesFor, List.mem_map]
  constructor
  · rintro ⟨⟨i, r⟩, hmem, heq⟩
    refine ⟨i, r, List.mk_mem_enum_iff_getElem?.mp hmem, ?_, ?_⟩
    · exact congrArg Prod.fst heq
    · exact (congrArg Prod.snd heq).symm
  · rintro ⟨i, r, h1, h2, h3⟩
    refine ⟨(i, r), List.mk_mem_enum_iff_getElem?.mpr h1, ?_⟩
    simp [h2, h3]

theorem entriesFor_map_fst (hasSP hasSF : Bool) (rows : List Row) :
    (entriesFor hasSP hasSF rows).map Prod.fst = rows.map (levelKey hasSP hasSF) := by
  have h1 : (entriesFor hasSP hasSF rows).map Prod.fst
      = rows.enum.map (fun p => levelKey hasSP hasSF p.2) := by
    simp [entriesFor, List.map_map]
  rw [h1]
  conv_rhs => rw [← List.enum_map_snd rows]
  rw [List.map_map]
  rfl

theorem revmap_flatten_perm {α : Type} (xs : List (List α)) :
    List.Perm ((xs.map List.reverse).reverse.flatten) xs.flatten := by
  induction xs with
  | nil => simp
  | cons x rest ih =>
    simp only [List.map_cons, List.reverse_cons, List.flatten_append, List.flatten_cons,
      List.flatten_nil, List.append_nil]
    exact (List.Perm.append ih (List.reverse_perm x)).trans List.perm_append_comm

theorem mFor_perm (hasSP hasSF : Bool) (kepts : List (List Row)) :
    List.Perm (mFor hasSP hasSF kepts) ((kepts.map (entriesFor hasSP hasSF)).flatten) := by
  have h : kepts.map (fun rs => (entriesFor hasSP hasSF rs).reverse)
      = (kepts.map (entriesFor hasSP hasSF)).map List.reverse := by
    simp [List.map_map]
  rw [mFor, h]
  exact revmap_flatten_perm _

theorem mFor_keys_nodup (hasSP hasSF : Bool) (kepts : List (List Row))
    (h : ((kepts.flatten).map (levelKey hasSP hasSF)).Nodup) :
    ((mFor hasSP hasSF kepts).map Prod.fst).Nodup := by
  have hperm := (mFor_perm hasSP hasSF kepts).map Prod.fst
  apply hperm.nodup_iff.mpr
  have h1 : ((kepts.map (entriesFor hasSP hasSF)).flatten).map Prod.fst
      = ((kepts.map (entriesFor hasSP hasSF)).map (List.map Prod.fst)).flatten :=
    List.map_flatten _ _
  rw [h1]
  have h2 : (kepts.map (entriesFor hasSP hasSF)).map (List.map Prod.fst)
      = kepts.map (fun rs => rs.map (levelKey hasSP hasSF)) := by
    rw [List.map_map]
    exact List.map_congr_left (fun rs _ => entriesFor_map_fst hasSP hasSF rs)
  rw [h2]
  have h3 : (kepts.map (fun rs => rs.map (levelKey hasSP hasSF))).flatten
      = (kepts.flatten).map (levelKey hasSP hasSF) := (List.map_flatten _ _).symm
  rw [h3]
  exact h

/-- Lookup in the accumulated mapping, under global key distinctness of
the kept rows: a hit is exactly an enumerated row of one of the kept
levels. -/
theorem mFor_lookup (hasSP hasSF : Bool) (kepts : List (List Row))
    (hnd : ((kepts.flatten).map (levelKey hasSP hasSF)).Nodup) (k : String × Int) (v : Int) :
    (mFor hasSP hasSF kepts).lookup k = some v
      ↔ ∃ rs ∈ kepts, ∃ i : Nat, ∃ r, rs[i]? = some r
          ∧ levelKey hasSP hasSF r = k ∧ v = (i : Int) := by
  rw [plookup_eq_some_iff _ (mFor_keys_nodup hasSP hasSF kepts hnd), mem_mFor]
  constructor
  · rintro ⟨rs, hrs, hmem⟩
    obtain ⟨i, r, h1, h2, h3⟩ := (mem_entriesFor hasSP hasSF rs k v).mp hmem
    exact ⟨rs, hrs, i, r, h1, h2, h3⟩
  · rintro ⟨rs, hrs, i, r, h1, h2, h3⟩
    exact ⟨rs, hrs, (mem_entriesFor hasSP hasSF rs k v).mpr ⟨i, r, h1, h2, h3⟩⟩

theorem filterLevel_map_fst (hasSP hasSF : Bool) (m : PMap) (rows : List Row) :
    (filterLevel hasSP hasSF m rows).map Prod.fst
      = rows.filter (fun r => (m.lookup (parentKey hasSP hasSF r)).isSome) := by
  induction rows with
  | nil => rfl
  | cons r rest ih =>
    simp only [filterLevel, List.filterMap_cons] at ih ⊢
    cases hl : m.lookup (parentKey hasSP hasSF r) <;>
      simp [hl, List.filter_cons, ih]

theorem filterLevel_mem (hasSP hasSF : Bool) (m : PMap) (rows : List Row) (r : Row) (v : Int) :
    (r, v) ∈ filterLevel hasSP hasSF m rows
      ↔ r ∈ rows ∧ m.lookup (parentKey hasSP hasSF r) = some v := by
  simp only [filterLevel, List.mem_filterMap]
  constructor
  · rintro ⟨a, ha, heq⟩
    rw [Option.map_eq_some'] at heq
    obtain ⟨w, hw, heq⟩ := heq
    obtain ⟨h1, h2⟩ := Prod.mk.injEq _ _ _ _ ▸ heq
    subst h1
    subst h2
    exact ⟨ha, hw⟩
  · rintro ⟨hmem, hl⟩
    exact ⟨r, hmem, by rw [hl]; rfl⟩

/-- When no level but the last of `kepts` contains a row keyed like `r`'s
parent, a mapping hit for `r`'s parent key is exactly a row of the last
kept level. -/
theorem mFor_lookup_last (hasSP hasSF : Bool) (kepts : List (List Row)) (hkne : kepts ≠ [])
    (hnd : ((kepts.flatten).map (levelKey hasSP hasSF)).Nodup) (r : Row)
    (hforbid : ∀ j, j + 1 < kepts.length → ∀ p ∈ kepts.getD j [],
      levelKey hasSP hasSF p ≠ parentKey hasSP hasSF r) (v : Int) :
    (mFor hasSP hasSF kepts).lookup (parentKey hasSP hasSF r) = some v
      ↔ ∃ i : Nat, ∃ p, (kepts.getD (kepts.length - 1) [])[i]? = some p
          ∧ levelKey hasSP hasSF p = parentKey hasSP hasSF r ∧ v = (i : Int) := by
  have hlenpos : 0 < kepts.length := List.length_pos.mpr hkne
  rw [mFor_lookup hasSP hasSF kepts hnd]
  constructor
  · rintro ⟨rs, hrs, i, p, hip, hkey, hv⟩
    obtain ⟨jdx, hjlt, hje⟩ := List.getElem_of_mem hrs
    have hrs_getD : kepts.getD jdx [] = rs := by
      rw [List.getD_eq_getElem?_getD, List.getElem?_eq_getElem hjlt, hje]
      rfl
    by_cases hj : jdx + 1 < kepts.length
    · exact absurd hkey (hforbid jdx hj p (hrs_getD ▸ List.getElem?_mem hip))
    · have hje' : jdx = kepts.length - 1 := by omega
      subst hje'
      exact ⟨i, p, hrs_getD ▸ hip, hkey, hv⟩
  · rintro ⟨i, p, hip, hkey, hv⟩
    have hmem : kepts.getD (kepts.length - 1) [] ∈ kepts := by
      rw [List.getD_eq_getElem?_getD, List.getElem?_eq_getElem (by omega)]
      exact List.getElem_mem _
    exact ⟨_, hmem, i, p, hip, hkey, hv⟩

theorem pdOut_cons (hasSP hasSF : Bool) (kepts : List (List Row)) (t : Table)
    (rest : List Table) :
    pdOut hasSP hasSF kepts (t :: rest)
      = (strip_columns (reindex_table
            ⟨t.cols, (filterLevel hasSP hasSF (mFor hasSP hasSF kepts) t.rows).map Prod.fst⟩
            (intRange ((filterLevel hasSP hasSF (mFor hasSP hasSF kepts) t.rows).map
              Prod.fst).length)
            ((filterLevel hasSP hasSF (mFor hasSP hasSF kepts) t.rows).map Prod.snd)),
         (filterLevel hasSP hasSF (mFor hasSP hasSF kepts) t.rows).map Prod.fst)
        :: pdOut hasSP hasSF
            (kepts ++ [(filterLevel hasSP hasSF (mFor hasSP hasSF kepts) t.rows).map Prod.fst])
            rest := by
  simp only [pdOut, processDeeper, extendMap_mFor]

theorem pdTable_zero (hasSP hasSF : Bool) (kepts : List (List Row)) (t : Table)
    (rest : List Table) :
    pdTable hasSP hasSF kepts (t :: rest) 0
      = strip_columns (reindex_table
          ⟨t.cols, (filterLevel hasSP hasSF (mFor hasSP hasSF kepts) t.rows).map Prod.fst⟩
          (intRange ((filterLevel hasSP hasSF (mFor hasSP hasSF kepts) t.rows).map
            Prod.fst).length)
          ((filterLevel hasSP hasSF (mFor hasSP hasSF kepts) t.rows).map Prod.snd)) := by
  rw [pdTable, pdOut_cons]
  rfl

theorem pdKept_zero (hasSP hasSF : Bool) (kepts : List (List Row)) (t : Table)
    (rest : List Table) :
    pdKept hasSP hasSF kepts (t :: rest) 0
      = (filterLevel hasSP hasSF (mFor hasSP hasSF kepts) t.rows).map Prod.fst := by
  rw [pdKept, pdOut_cons]
  rfl

theorem pdPrev_zero (hasSP hasSF : Bool) (kepts : List (List Row)) (t : Table)
    (rest : List Table) (hkne : kepts ≠ []) :
    pdPrev hasSP hasSF kepts (t :: rest) 0 = kepts.getD (kepts.length - 1) [] := by
  have hlenpos : 0 < kepts.length := List.length_pos.mpr hkne
  rw [pdPrev, Nat.add_zero]
  exact List.getD_append _ _ _ _ (by omega)

theorem pdTable_succ (hasSP hasSF : Bool) (kepts : List (List Row)) (t : Table)
    (rest : List Table) (a : Nat) :
    pdTable hasSP hasSF kepts (t :: rest) (a + 1)
      = pdTable hasSP hasSF
          (kepts ++ [(filterLevel hasSP hasSF (mFor hasSP hasSF kepts) t.rows).map Prod.fst])
          rest a := by
  rw [pdTable, pdTable, pdOut_cons]
  rfl

theorem pdKept_succ (hasSP hasSF : Bool) (kepts : List (List Row)) (t : Table)
    (rest : List Table) (a : Nat) :
    pdKept hasSP hasSF kepts (t :: rest) (a + 1)
      = pdKept hasSP hasSF
          (kepts ++ [(filterLevel hasSP hasSF (mFor hasSP hasSF kepts) t.rows).map Prod.fst])
          rest a := by
  rw [pdKept, pdKept, pdOut_cons]
  rfl

theorem pdPrev_succ (hasSP hasSF : Bool) (kepts : List (List Row)) (t : Table)
    (rest : List Table) (a : Nat) (hkne : kepts ≠ []) :
    pdPrev hasSP hasSF kepts (t :: rest) (a + 1)
      = pdPrev hasSP hasSF
          (kepts ++ [(filterLevel hasSP hasSF (mFor hasSP hasSF kepts) t.rows).map Prod.fst])
          rest a := by
  have hlenpos : 0 < kepts.length := List.length_pos.mpr hkne
  rw [pdPrev, pdPrev, pdOut_cons]
  simp only [List.map_cons]
  have h1 : kepts ++ ((filterLevel hasSP hasSF (mFor hasSP hasSF kepts) t.rows).map Prod.fst)
        :: (pdOut hasSP hasSF
            (kepts ++ [(filterLevel hasSP hasSF (mFor hasSP hasSF kepts) t.rows).map Prod.fst])
            rest).map Prod.snd
      = (kepts ++ [(filterLevel hasSP hasSF (mFor hasSP hasSF kepts) t.rows).map Prod.fst])
        ++ (pdOut hasSP hasSF
            (kepts ++ [(filterLevel hasSP hasSF (mFor hasSP hasSF kepts) t.rows).map Prod.fst])
            rest).map Prod.snd := by
    simp
  rw [h1]
  have h2 : kepts.length - 1 + (a + 1)
      = (kepts ++ [(filterLevel hasSP hasSF (mFor hasSP hasSF kepts) t.rows).map Prod.fst]).length
          - 1 + a := by
    simp
    omega
  rw [h2]

/-- Workhorse for C3: with the already-processed kept levels `kepts`,
provided the kept and pending rows' `(source_key, current_id)` keys are
globally distinct and no pending row's parent key collides with a level
other than the one directly above it, each processed level keeps a row
exactly when the level above kept its parent, and its reindexed
`internal:parent_id` is the parent's new index. -/
theorem processDeeper_conclusions (hasSP hasSF : Bool) :
    ∀ (ts : List Table) (kepts : List (List Row)),
      kepts ≠ [] →
      ((kepts.flatten ++ (ts.map Table.rows).flatten).map (levelKey hasSP hasSF)).Nodup →
      (∀ a r, r ∈ (ts.map Table.rows).getD a [] →
        ∀ j, j + 1 < kepts.length + a →
          ∀ p ∈ (kepts ++ ts.map Table.rows).getD j [],
            levelKey hasSP hasSF p ≠ parentKey hasSP hasSF r) →
      ∀ a, a < ts.length →
        ((pdTable hasSP hasSF kepts ts a).rows.length = (pdKept hasSP hasSF kepts ts a).length)
        ∧ (∀ r ∈ (ts.getD a default).rows,
            (r ∈ pdKept hasSP hasSF kepts ts a
              ↔ ∃ p ∈ pdPrev hasSP hasSF kepts ts a,
                  levelKey hasSP hasSF p = parentKey hasSP hasSF r))
        ∧ (∀ j, j < (pdKept hasSP hasSF kepts ts a).length →
            ∃ k, k < (pdPrev hasSP hasSF kepts ts a).length
              ∧ levelKey hasSP hasSF ((pdPrev hasSP hasSF kepts ts a).getD k default)
                  = parentKey hasSP hasSF ((pdKept hasSP hasSF kepts ts a).getD j default)
              ∧ ((pdTable hasSP hasSF kepts ts a).rows.getD j default).parent_id = (k : Int)) := by
  intro ts
  induction ts with
  | nil =>
    intro kepts _ _ _ a ha
    simp at ha
  | cons t rest ih =>
    intro kepts hkne hnodup hcross a ha
    have hlenpos : 0 < kepts.length := List.length_pos.mpr hkne
    have hfr_sub : List.Sublist
        ((filterLevel hasSP hasSF (mFor hasSP hasSF kepts) t.rows).map Prod.fst) t.rows := by
      rw [filterLevel_map_fst]
      exact List.filter_sublist t.rows
    cases a with
    | zero =>
      have hkeyNodup : ((kepts.flatten).map (levelKey hasSP hasSF)).Nodup := by
        rw [List.map_append] at hnodup
        exact hnodup.of_append_left
      have hforbid : ∀ r, r ∈ t.rows → ∀ j, j + 1 < kepts.length →
          ∀ p ∈ kepts.getD j [],
            levelKey hasSP hasSF p ≠ parentKey hasSP hasSF r := by
        intro r hr j hj p hp
        refine hcross 0 r ?_ j (by omega) p ?_
        · simpa using hr
        · rw [List.getD_append _ _ _ _ (by omega)]
          exact hp
      have hTlen : (pdTable hasSP hasSF kepts (t :: rest) 0).rows.length
          = (pdKept hasSP hasSF kepts (t :: rest) 0).length := by
        rw [pdTable_zero, pdKept_zero, strip_columns_length,
          reindex_table_length _ _ _ (by simp [intRange_length]) (by simp)]
      refine ⟨hTlen, ?_, ?_⟩
      · intro r hr
        have hr' : r ∈ t.rows := hr
        rw [pdKept_zero, filterLevel_map_fst, List.mem_filter,
          pdPrev_zero hasSP hasSF kepts t rest hkne]
        constructor
        · rintro ⟨-, hsome⟩
          obtain ⟨v, hv⟩ := Option.isSome_iff_exists.mp hsome
          obtain ⟨i, p, hip, hkey, -⟩ :=
            (mFor_lookup_last hasSP hasSF kepts hkne hkeyNodup r (hforbid r hr') v).mp hv
          exact ⟨p, List.getElem?_mem hip, hkey⟩
        · rintro ⟨p, hp, hkey⟩
          obtain ⟨i, hilt, hie⟩ := List.getElem_of_mem hp
          refine ⟨hr', ?_⟩
          rw [Option.isSome_iff_exists]
          refine ⟨(i : Int), (mFor_lookup_last hasSP hasSF kepts hkne hkeyNodup r
            (hforbid r hr') (i : Int)).mpr ⟨i, p, ?_, hkey, rfl⟩⟩
          rw [List.getElem?_eq_getElem hilt, hie]
      · intro j hj
        have hjP : j < (filterLevel hasSP hasSF (mFor hasSP hasSF kepts) t.rows).length := by
          rw [pdKept_zero] at hj
          simpa using hj
        obtain ⟨pr, hpr⟩ : ∃ pr,
            (filterLevel hasSP hasSF (mFor hasSP hasSF kepts) t.rows)[j]? = some pr :=
          ⟨_, List.getElem?_eq_getElem hjP⟩
        have hprmem := List.getElem?_mem hpr
        obtain ⟨hprrows, hprlookup⟩ :=
          (filterLevel_mem hasSP hasSF (mFor hasSP hasSF kepts) t.rows pr.1 pr.2).mp
            (by simpa using hprmem)
        obtain ⟨i, p, hip, hkey, hv⟩ :=
          (mFor_lookup_last hasSP hasSF kepts hkne hkeyNodup pr.1
            (hforbid pr.1 hprrows) pr.2).mp hprlookup
        have hkd : (pdKept hasSP hasSF kepts (t :: rest) 0).getD j default = pr.1 := by
          rw [pdKept_zero, List.getD_eq_getElem?_getD, List.getElem?_map, hpr]
          rfl
        have hparmap : (pdTable hasSP hasSF kepts (t :: rest) 0).rows.map (·.parent_id)
            = (filterLevel hasSP hasSF (mFor hasSP hasSF kepts) t.rows).map Prod.snd := by
          rw [pdTable_zero, strip_columns_map _ (fun c r => dropCellsOf_parent c r)]
          exact reindex_table_map_parent _ _ _ (by simp [intRange_length]) (by simp)
        have hjT : j < (pdTable hasSP hasSF kepts (t :: rest) 0).rows.length := by
          rw [hTlen]
          exact hj
        obtain ⟨row, hrow⟩ : ∃ row,
            (pdTable hasSP hasSF kepts (t :: rest) 0).rows[j]? = some row :=
          ⟨_, List.getElem?_eq_getElem hjT⟩
        have h1 := congrArg (fun l => l[j]?) hparmap
        simp only [List.getElem?_map] at h1
        rw [hrow, hpr] at h1
        have hrowpar : row.parent_id = pr.2 := by
          simpa using h1
        refine ⟨i, ?_, ?_, ?_⟩
        · rw [pdPrev_zero hasSP hasSF kepts t rest hkne]
          exact (List.getElem?_eq_some.mp hip).1
        · rw [pdPrev_zero hasSP hasSF kepts t rest hkne, List.getD_eq_getElem?_getD, hip,
            Option.getD_some, hkd]
          exact hkey
        · rw [List.getD_eq_getElem?_getD, hrow, Option.getD_some, hrowpar, hv]
    | succ a' =>
      have ha' : a' < rest.length := by simpa using ha
      have hkne' :
          (kepts ++ [(filterLevel hasSP hasSF (mFor hasSP hasSF kepts) t.rows).map Prod.fst])
            ≠ [] := by simp
      have hnodup' :
          (((kepts
              ++ [(filterLevel hasSP hasSF (mFor hasSP hasSF kepts) t.rows).map Prod.fst]).flatten
            ++ (rest.map Table.rows).flatten).map (levelKey hasSP hasSF)).Nodup := by
        have hsub : List.Sublist
            ((kepts
                ++ [(filterLevel hasSP hasSF (mFor hasSP hasSF kepts) t.rows).map
                  Prod.fst]).flatten
              ++ (rest.map Table.rows).flatten)
            (kepts.flatten ++ ((t :: rest).map Table.rows).flatten) := by
          simp only [List.flatten_append, List.flatten_cons, List.flatten_nil,
            List.append_nil, List.map_cons]
          rw [List.append_assoc]
          exact List.Sublist.append_left (hfr_sub.append (List.Sublist.refl _)) _
        exact ((hsub.map _).nodup hnodup)
      have hcross' : ∀ a r,
          r ∈ (rest.map Table.rows).getD a [] →
          ∀ j, j + 1 < (kepts
              ++ [(filterLevel hasSP hasSF (mFor hasSP hasSF kepts) t.rows).map
                Prod.fst]).length + a →
          ∀ p ∈ ((kepts
              ++ [(filterLevel hasSP hasSF (mFor hasSP hasSF kepts) t.rows).map Prod.fst])
              ++ rest.map Table.rows).getD j [],
            levelKey hasSP hasSF p ≠ parentKey hasSP hasSF r := by
        intro a r hr j hj p hp
        have hlen' : (kepts
            ++ [(filterLevel hasSP hasSF (mFor hasSP hasSF kepts) t.rows).map
              Prod.fst]).length = kepts.length + 1 := by simp
        rw [hlen'] at hj
        refine hcross (a + 1) r (by simpa using hr) j (by omega) p ?_
        rw [List.append_assoc] at hp
        rcases Nat.lt_trichotomy j kepts.length with hlt | heq | hgt
        · rw [List.getD_append _ _ _ _ hlt] at hp
          rw [List.map_cons, List.getD_append _ _ _ _ hlt]
          exact hp
        · rw [List.getD_append_right _ _ _ _ (le_of_eq heq.symm)] at hp
          rw [List.map_cons, List.getD_append_right _ _ _ _ (le_of_eq heq.symm)]
          have hz : j - kepts.length = 0 := by omega
          rw [hz] at hp ⊢
          simp only [List.getD_cons_zero] at hp ⊢
          exact hfr_sub.subset hp
        · rw [List.getD_append_right _ _ _ _ (by omega)] at hp
          rw [List.map_cons, List.getD_append_right _ _ _ _ (by omega)]
          have hidx : j - kepts.length = (j - kepts.length - 1) + 1 := by omega
          rw [hidx] at hp ⊢
          simp only [List.getD_cons_succ] at hp ⊢
          exact hp
      have hres := ih
        (kepts ++ [(filterLevel hasSP hasSF (mFor hasSP hasSF kepts) t.rows).map Prod.fst])
        hkne' hnodup' hcross' a' ha'
      rw [pdTable_succ, pdKept_succ, pdPrev_succ hasSP hasSF kepts t rest a' hkne]
      exact hres

theorem processDeeper_length (hasSP hasSF : Bool) :
    ∀ (ts : List Table) (m : PMap), (processDeeper hasSP hasSF m ts).length = ts.length := by
  intro ts
  induction ts with
  | nil => intro m; rfl
  | cons t rest ih =>
    intro m
    simp only [processDeeper, List.length_cons, ih]

theorem reindex_levels_eq (snapshot : Table) (deeper : List Table) :
    (reindex_metadata_from_snapshot snapshot deeper).1
      = strip_columns (reindex_table snapshot (intRange snapshot.rows.length)
          (intRange snapshot.rows.length))
        :: (pdOut (snapshot.cols.contains METADATA_SOURCE_PATH)
            (snapshot.cols.contains METADATA_SOURCE_FILE) [snapshot.rows] deeper).map
            Prod.fst := by
  simp only [reindex_metadata_from_snapshot, pdOut, mFor_single]

theorem keptRows_eq (snapshot : Table) (deeper : List Table) :
    keptRows snapshot deeper
      = snapshot.rows
        :: (pdOut (snapshot.cols.contains METADATA_SOURCE_PATH)
            (snapshot.cols.contains METADATA_SOURCE_FILE) [snapshot.rows] deeper).map
            Prod.snd := by
  simp only [keptRows, pdOut, mFor_single]

theorem pdPrev_keptRows (snapshot : Table) (deeper : List Table) (i : Nat) :
    pdPrev (snapshot.cols.contains METADATA_SOURCE_PATH)
        (snapshot.cols.contains METADATA_SOURCE_FILE) [snapshot.rows] deeper i
      = (keptRows snapshot deeper).getD i [] := by
  rw [keptRows_eq]
  simp only [pdPrev, List.singleton_append, List.length_cons, List.length_nil]
  have h : 0 + 1 - 1 + i = i := by omega
  rw [h]

theorem getD_pair_fst (l : List (Table × List Row)) (i : Nat) (h : i < l.length) :
    (l.map Prod.fst).getD i default = (l.getD i (default, [])).1 := by
  rw [List.getD_eq_getElem?_getD, List.getD_eq_getElem?_getD, List.getElem?_map,
    List.getElem?_eq_getElem h]
  rfl

theorem getD_pair_snd (l : List (Table × List Row)) (i : Nat) (h : i < l.length) :
    (l.map Prod.snd).getD i [] = (l.getD i (default, [])).2 := by
  rw [List.getD_eq_getElem?_getD, List.getD_eq_getElem?_getD, List.getElem?_map,
    List.getElem?_eq_getElem h]
  rfl

/-- C3 as amended: for every `ExportPlan` produced by `plan_export` from a
view whose rows' `(source_key, internal:current_id)` keys are distinct
across *all* levels and in which a row's parent key never collides with a
row of a level other than the one directly above it, every level-`ℓ` row
(`ℓ > 0`) is kept exactly when its original parent survived at level
`ℓ−1`, and its reindexed `internal:parent_id` equals the parent's new
`current_id`, which lies in `0..|levels[ℓ−1]|−1`.  (Without the
cross-level hypotheses the property fails: the parent-id mapping
accumulates across all levels, so a key collision with an older level can
keep a row whose parent was dropped — see the counterexample.) -/
theorem reindex_tree_integrity (strip : String → String) (ds : Dataset)
    (outputExists : Bool) (output now : String) (plan : ExportPlan) (qs : List String)
    (hok : plan_export strip ds outputExists output now = (.ok plan, qs))
    (huniq : (((ds.snapshot.rows :: ds.deeper.map Table.rows).flatten).map
        (levelKey ds.hasSP ds.hasSF)).Nodup)
    (hcross : ∀ a r, r ∈ (ds.deeper.map Table.rows).getD a [] →
        ∀ j, j + 1 < 1 + a →
          ∀ p ∈ (ds.snapshot.rows :: ds.deeper.map Table.rows).getD j [],
            levelKey ds.hasSP ds.hasSF p ≠ parentKey ds.hasSP ds.hasSF r) :
    ∀ i, i < ds.deeper.length →
      (∀ r ∈ (ds.deeper.getD i default).rows,
          (r ∈ (keptRows ds.snapshot ds.deeper).getD (i + 1) []
            ↔ ∃ p ∈ (keptRows ds.snapshot ds.deeper).getD i [],
                levelKey ds.hasSP ds.hasSF p = parentKey ds.hasSP ds.hasSF r))
      ∧ (plan.levels.getD (i + 1) default).rows.length
          = ((keptRows ds.snapshot ds.deeper).getD (i + 1) []).length
      ∧ (∀ j, j < (plan.levels.getD (i + 1) default).rows.length →
          ∃ k, k < (plan.levels.getD i default).rows.length
            ∧ ((plan.levels.getD (i + 1) default).rows.getD j default).parent_id = (k : Int)
            ∧ levelKey ds.hasSP ds.hasSF
                (((keptRows ds.snapshot ds.deeper).getD i []).getD k default)
              = parentKey ds.hasSP ds.hasSF
                (((keptRows ds.snapshot ds.deeper).getD (i + 1) []).getD j default)) := by
  intro i hi
  unfold Dataset.hasSP Dataset.hasSF at huniq hcross ⊢
  have hL : plan.levels
      = strip_columns (reindex_table ds.snapshot (intRange ds.snapshot.rows.length)
          (intRange ds.snapshot.rows.length))
        :: (pdOut (ds.snapshot.cols.contains METADATA_SOURCE_PATH)
            (ds.snapshot.cols.contains METADATA_SOURCE_FILE) [ds.snapshot.rows]
            ds.deeper).map Prod.fst :=
    (plan_export_ok_levels strip ds outputExists output now plan qs hok).trans
      (reindex_levels_eq ds.snapshot ds.deeper)
  have hpdlen : (pdOut (ds.snapshot.cols.contains METADATA_SOURCE_PATH)
      (ds.snapshot.cols.contains METADATA_SOURCE_FILE) [ds.snapshot.rows] ds.deeper).length
      = ds.deeper.length := processDeeper_length _ _ _ _
  have hnd' : (((([ds.snapshot.rows] : List (List Row)).flatten
        ++ (ds.deeper.map Table.rows).flatten)).map
        (levelKey (ds.snapshot.cols.contains METADATA_SOURCE_PATH)
          (ds.snapshot.cols.contains METADATA_SOURCE_FILE))).Nodup := by
    simpa using huniq
  have hcross' : ∀ a r, r ∈ (ds.deeper.map Table.rows).getD a [] →
      ∀ j, j + 1 < ([ds.snapshot.rows] : List (List Row)).length + a →
        ∀ p ∈ (([ds.snapshot.rows] : List (List Row)) ++ ds.deeper.map Table.rows).getD j [],
          levelKey (ds.snapshot.cols.contains METADATA_SOURCE_PATH)
              (ds.snapshot.cols.contains METADATA_SOURCE_FILE) p
            ≠ parentKey (ds.snapshot.cols.contains METADATA_SOURCE_PATH)
              (ds.snapshot.cols.contains METADATA_SOURCE_FILE) r := by
    intro a r hr j hj p hp
    refine hcross a r hr j (by simpa using hj) p ?_
    simpa using hp
  have main := processDeeper_conclusions (ds.snapshot.cols.contains METADATA_SOURCE_PATH)
    (ds.snapshot.cols.contains METADATA_SOURCE_FILE) ds.deeper [ds.snapshot.rows]
    (by simp) hnd' hcross'
  obtain ⟨m1, m2, m3⟩ := main i hi
  -- accessors at level i+1
  have hkept : (keptRows ds.snapshot ds.deeper).getD (i + 1) []
      = pdKept (ds.snapshot.cols.contains METADATA_SOURCE_PATH)
          (ds.snapshot.cols.contains METADATA_SOURCE_FILE) [ds.snapshot.rows] ds.deeper i := by
    rw [keptRows_eq]
    simp only [List.getD_cons_succ]
    exact getD_pair_snd _ i (by rw [hpdlen]; exact hi)
  have hlev : plan.levels.getD (i + 1) default
      = pdTable (ds.snapshot.cols.contains METADATA_SOURCE_PATH)
          (ds.snapshot.cols.contains METADATA_SOURCE_FILE) [ds.snapshot.rows] ds.deeper i := by
    rw [hL]
    simp only [List.getD_cons_succ]
    exact getD_pair_fst _ i (by rw [hpdlen]; exact hi)
  have hprev := pdPrev_keptRows ds.snapshot ds.deeper
  -- length of the level-i output table equals the kept rows at level i
  have hleni : (plan.levels.getD i default).rows.length
      = ((keptRows ds.snapshot ds.deeper).getD i []).length := by
    cases i with
    | zero =>
      rw [hL]
      simp only [List.getD_cons_zero]
      rw [keptRows_eq]
      simp only [List.getD_cons_zero]
      rw [strip_columns_length, reindex_table_length _ _ _ (by simp [intRange_length])
        (by simp [intRange_length])]
    | succ i' =>
      have hi' : i' < ds.deeper.length := by omega
      obtain ⟨m1', -, -⟩ := main i' hi'
      have hkept' : (keptRows ds.snapshot ds.deeper).getD (i' + 1) []
          = pdKept (ds.snapshot.cols.contains METADATA_SOURCE_PATH)
              (ds.snapshot.cols.contains METADATA_SOURCE_FILE) [ds.snapshot.rows]
              ds.deeper i' := by
        rw [keptRows_eq]
        simp only [List.getD_cons_succ]
        exact getD_pair_snd _ i' (by rw [hpdlen]; exact hi')
      have hlev' : plan.levels.getD (i' + 1) default
          = pdTable (ds.snapshot.cols.contains METADATA_SOURCE_PATH)
              (ds.snapshot.cols.contains METADATA_SOURCE_FILE) [ds.snapshot.rows]
              ds.deeper i' := by
        rw [hL]
        simp only [List.getD_cons_succ]
        exact getD_pair_fst _ i' (by rw [hpdlen]; exact hi')
      rw [hlev', hkept', m1']
  refine ⟨?_, ?_, ?_⟩
  · intro r hr
    rw [hkept, ← hprev i]
    exact m2 r hr
  · rw [hlev, hkept]
    exact m1
  · intro j hj
    rw [hlev] at hj
    rw [m1] at hj
    obtain ⟨k, hk1, hk2, hk3⟩ := m3 j hj
    refine ⟨k, ?_, ?_, ?_⟩
    · rw [hleni, ← hprev i]
      exact hk1
    · rw [hlev]
      exact hk3
    · rw [hkept, ← hprev i]
      exact hk2

/-- C3 counterexample: on `dsCollide` — a view satisfying the data-model
invariants (each row has exactly one parent at the level above, per-level
ids unique, ids sparse) — the level-2 row is kept although its level-1
parent (old id 4) was dropped: its parent key `("", 4)` collides with the
entry recorded for the *level-0* snapshot row with old id 4, so the plan's
level-2 `internal:parent_id` is 1 while `levels[1]` has only one row —
outside `0..|levels[1]|-1`, and the kept level-2 row's parent did not
survive at level 1. -/
theorem reindex_tree_integrity_false :
    ((plan_export (fun x => x) dsCollide false "out" "T").1.map (fun plan =>
        ((plan.levels.getD 2 default).rows.map (·.parent_id),
         (plan.levels.getD 1 default).rows.length)))
      = .ok ([1], 1)
    ∧ ¬ ((1 : Int) < (1 : Int))
    ∧ (keptRows dsCollide.snapshot dsCollide.deeper).getD 2 [] = [mkFileRow "c" 1 4]
    ∧ ((keptRows dsCollide.snapshot dsCollide.deeper).getD 1 []).map (levelKey false false)
        = [("", 8)]
    ∧ parentKey false false (mkFileRow "c" 1 4) = ("", 4)
    ∧ (("", 8) : String × Int) ≠ ("", 4) :=
  ⟨rfl, by decide, rfl, rfl, rfl, by decide⟩

/-- Witness for C3 (amended) on the concrete view `dsSmall`. -/
theorem reindex_tree_integrity_witness :
    plan_export (fun x => x) dsSmall false "out" "T" = (.ok planSmallOk, planSmallQs)
    ∧ ((∀ r ∈ (dsSmall.deeper.getD 0 default).rows,
          (r ∈ (keptRows dsSmall.snapshot dsSmall.deeper).getD 1 []
            ↔ ∃ p ∈ (keptRows dsSmall.snapshot dsSmall.deeper).getD 0 [],
                levelKey dsSmall.hasSP dsSmall.hasSF p
                  = parentKey dsSmall.hasSP dsSmall.hasSF r))
        ∧ (planSmallOk.levels.getD 1 default).rows.length
            = ((keptRows dsSmall.snapshot dsSmall.deeper).getD 1 []).length
        ∧ (∀ j, j < (planSmallOk.levels.getD 1 default).rows.length →
            ∃ k, k < (planSmallOk.levels.getD 0 default).rows.length
              ∧ ((planSmallOk.levels.getD 1 default).rows.getD j default).parent_id = (k : Int)
              ∧ levelKey dsSmall.hasSP dsSmall.hasSF
                  (((keptRows dsSmall.snapshot dsSmall.deeper).getD 0 []).getD k default)
                = parentKey dsSmall.hasSP dsSmall.hasSF
                  (((keptRows dsSmall.snapshot dsSmall.deeper).getD 1 []).getD j default))) :=
  ⟨rfl,
   reindex_tree_integrity (fun x => x) dsSmall false "out" "T" planSmallOk planSmallQs rfl
     (by decide)
     (by
       intro a r hr j hj p hp
       cases a with
       | zero => omega
       | succ n =>
         have hnil : (dsSmall.deeper.map Table.rows).getD (n + 1) [] = [] := by
           rw [List.getD_eq_getElem?_getD, List.getElem?_eq_none (by simp [dsSmall])]
           rfl
         rw [hnil] at hr
         simp at hr)
     0 (by decide)⟩

/-! ### C5 — local-metadata coverage -/

/-- Generic form of the association-list lookup/membership agreement. -/
theorem lookup_eq_some_iff_nodup {α β : Type} [BEq α] [LawfulBEq α] (l : List (α × β))
    (hnd : (l.map Prod.fst).Nodup) (k : α) (v : β) :
    l.lookup k = some v ↔ (k, v) ∈ l := by
  induction l with
  | nil => simp [List.lookup]
  | cons p rest ih =>
    obtain ⟨k', v'⟩ := p
    simp only [List.map_cons, List.nodup_cons] at hnd
    cases hkk : k == k' with
    | true =>
      have hk : k = k' := eq_of_beq hkk
      subst hk
      simp only [List.lookup, hkk]
      constructor
      · intro hv
        have hv' : v' = v := Option.some.inj hv
        subst hv'
        exact List.mem_cons_self _ _
      · intro hmem
        rcases List.mem_cons.mp hmem with heq | hmem'
        · have hv := congrArg Prod.snd heq
          simp only at hv
          rw [hv]
        · exact absurd (List.mem_map_of_mem Prod.fst hmem') hnd.1
    | false =>
      have hk : k ≠ k' := ne_of_beq_false hkk
      simp only [List.lookup, hkk, ih hnd.2]
      constructor
      · intro hmem
        exact List.mem_cons_of_mem _ hmem
      · intro hmem
        rcases List.mem_cons.mp hmem with heq | hmem'
        · exact absurd (congrArg Prod.fst heq) hk
        · exact hmem'

/-- Looking a key up in the reversed keyed map of a list with distinct
keys returns that element's value. -/
theorem lookup_rev_map {α β γ : Type} [BEq α] [LawfulBEq α] (l : List γ)
    (kf : γ → α) (vf : γ → β) (hnd : (l.map kf).Nodup) (f : γ) (hf : f ∈ l) :
    ((l.map (fun g => (kf g, vf g))).reverse).lookup (kf f) = some (vf f) := by
  have hkeys : (((l.map (fun g => (kf g, vf g))).reverse).map Prod.fst).Nodup := by
    rw [List.map_reverse, List.nodup_reverse, List.map_map]
    simpa using hnd
  rw [lookup_eq_some_iff_nodup _ hkeys]
  rw [List.mem_reverse, List.mem_map]
  exact ⟨f, hf, rfl⟩

/-- Skipping an association-list segment that does not hold the key. -/
theorem lookup_append_of_not_mem {α β : Type} [BEq α] [LawfulBEq α]
    (A B : List (α × β)) (k : α) (h : k ∉ A.map Prod.fst) :
    (A ++ B).lookup k = B.lookup k := by
  induction A with
  | nil => rfl
  | cons p rest ih =>
    simp only [List.map_cons, List.mem_cons, not_or] at h
    have hk : (k == p.1) = false := beq_eq_false_iff_ne.mpr h.1
    simp only [List.cons_append, List.lookup, hk]
    exact ih h.2

/-- A hit in the first segment of an association list is a hit overall. -/
theorem lookup_append_of_some {α β : Type} [BEq α] [LawfulBEq α]
    (A B : List (α × β)) (k : α) (v : β) (h : A.lookup k = some v) :
    (A ++ B).lookup k = some v := by
  induction A with
  | nil => simp [List.lookup] at h
  | cons p rest ih =>
    simp only [List.lookup] at h
    simp only [List.cons_append, List.lookup]
    cases hk : k == p.1 <;> rw [hk] at h
    · exact ih h
    · exact h

/-- `find?` on a current-id-distinct row list hits the unique row with the
sought id. -/
theorem find?_unique_cid (rows : List Row) (hnd : (rows.map (·.current_id)).Nodup)
    (p : Row) (hp : p ∈ rows) (c : Int) (hc : p.current_id = c) :
    rows.find? (fun q => q.current_id == c) = some p := by
  induction rows with
  | nil => simp at hp
  | cons r rest ih =>
    simp only [List.map_cons, List.nodup_cons] at hnd
    rcases List.mem_cons.mp hp with heq | hmem
    · subst heq
      have : (p.current_id == c) = true := beq_iff_eq.mpr hc
      simp [List.find?, this]
    · have hrc : (r.current_id == c) = false := by
        refine beq_eq_false_iff_ne.mpr (fun hre => ?_)
        refine hnd.1 ?_
        rw [hre, ← hc]
        exact List.mem_map_of_mem (·.current_id) hmem
      simp only [List.find?, hrc]
      exact ih hnd.2 hmem

theorem string_append_ne_empty (a b : String) (hb : b ≠ "") : a ++ b ≠ "" := by
  intro hcontr
  have hd := congrArg String.data hcontr
  rw [String.data_append] at hd
  have hbd : b.data = [] := (List.append_eq_nil.mp hd).2
  refine hb ?_
  cases b with
  | mk d => exact congrArg String.mk hbd

theorem ancestorPath_ne_empty (levels : List Table) : ∀ (ℓ : Nat) (p : Row),
    p.id ≠ "" → ancestorPath levels ℓ p ≠ "" := by
  intro ℓ
  cases ℓ with
  | zero => intro p h; exact h
  | succ m =>
    intro p h
    simp only [ancestorPath]
    cases (levels.getD m default).rows.find? (fun q => q.current_id == p.parent_id) with
    | none => exact h
    | some q =>
      simp only
      rw [String.append_assoc]
      exact string_append_ne_empty _ _ (string_append_ne_empty "/" p.id h)

theorem getD_mem_of_lt (levels : List Table) (ℓ : Nat) (h : ℓ < levels.length) :
    levels.getD ℓ default ∈ levels := by
  rw [List.getD_eq_getElem?_getD, List.getElem?_eq_getElem h]
  exact List.getElem_mem h

/-- Decomposing one step of the pairwise walk: the head of `levels.drop ℓ`
is `levels[ℓ]` and the tail is `levels.drop (ℓ+1)`. -/
theorem drop_head_getD (levels : List Table) {ℓ : Nat} {cur : Table} {tail : List Table}
    (h : levels.drop ℓ = cur :: tail) :
    levels.getD ℓ default = cur ∧ levels.drop (ℓ + 1) = tail ∧ ℓ < levels.length := by
  have h0 : levels[ℓ]? = some cur := by
    have h1 := List.getElem?_drop levels ℓ 0
    rw [h] at h1
    simpa using h1.symm
  refine ⟨?_, ?_, (List.getElem?_eq_some.mp h0).1⟩
  · rw [List.getD_eq_getElem?_getD, h0]
    rfl
  · rw [← List.tail_drop, h]
    rfl

theorem mem_folderKeySeg (levels : List Table) (ℓ : Nat) (f : Row)
    (hf : f ∈ (levels.getD ℓ default).rows) (hft : f.type = SAMPLE_TYPE_FOLDER) :
    (FOLDER_DATA_DIR ++ "/" ++ ancestorPath levels ℓ f ++ "/") ∈ folderKeySeg levels ℓ := by
  refine List.mem_map_of_mem _ (List.mem_filter.mpr ⟨hf, ?_⟩)
  simp [hft]

theorem folderKeySeg_nodup (levels : List Table) (hkeys : (folderKeys levels).Nodup)
    (ℓ : Nat) (hℓ : ℓ < levels.length - 1) : (folderKeySeg levels ℓ).Nodup := by
  have h := (List.nodup_flatten.mp hkeys).1
  exact h _ (List.mem_map_of_mem _ (List.mem_range.mpr hℓ))

theorem folderKeySeg_disjoint (levels : List Table) (hkeys : (folderKeys levels).Nodup)
    {i j : Nat} (hne : i ≠ j) (hi : i < levels.length - 1) (hj : j < levels.length - 1) :
    List.Disjoint (folderKeySeg levels i) (folderKeySeg levels j) := by
  have hpw := (List.nodup_flatten.mp hkeys).2
  rw [List.pairwise_map] at hpw
  rcases Nat.lt_or_ge i j with hij | hij
  · have h := List.pairwise_iff_getElem.mp hpw i j (by simpa using hi) (by simpa using hj) hij
    simpa using h
  · have hji : j < i := by omega
    have h := List.pairwise_iff_getElem.mp hpw j i (by simpa using hj) (by simpa using hi) hji
    exact (by simpa using h : List.Disjoint (folderKeySeg levels j) (folderKeySeg levels i)).symm

/-- The path computed by one folder's loop body equals the spec's
ancestor-join path, given correct paths for the previous level. -/
theorem relPathOf_correct (levels : List Table)
    (hcid : ∀ t ∈ levels, (t.rows.map (·.current_id)).Nodup)
    (hparent : ∀ ℓ, ℓ + 1 < levels.length →
      ∀ r ∈ (levels.getD (ℓ + 1) default).rows, r.type = SAMPLE_TYPE_FOLDER →
        ∃ p ∈ (levels.getD ℓ default).rows,
          p.current_id = r.parent_id ∧ p.type = SAMPLE_TYPE_FOLDER)
    (hids : ∀ t ∈ levels, ∀ r ∈ t.rows, r.type = SAMPLE_TYPE_FOLDER → r.id ≠ "")
    (ℓ : Nat) (hℓ : ℓ < levels.length) (prevPaths : List (Int × String))
    (hprev : 0 < ℓ → ∀ p ∈ (levels.getD (ℓ - 1) default).rows,
      p.type = SAMPLE_TYPE_FOLDER →
        prevPaths.lookup p.current_id = some (ancestorPath levels (ℓ - 1) p))
    (f : Row) (hf : f ∈ (levels.getD ℓ default).rows) (hft : f.type = SAMPLE_TYPE_FOLDER) :
    relPathOf ℓ prevPaths f = ancestorPath levels ℓ f := by
  cases ℓ with
  | zero => rfl
  | succ m =>
    obtain ⟨p, hp, hpc, hpt⟩ := hparent m hℓ f hf hft
    have hfind := find?_unique_cid (levels.getD m default).rows
      (hcid _ (getD_mem_of_lt levels m (by omega))) p hp f.parent_id hpc
    have hanc : ancestorPath levels (m + 1) f
        = ancestorPath levels m p ++ "/" ++ f.id := by
      simp only [ancestorPath, hfind]
    have hlook : prevPaths.lookup f.parent_id = some (ancestorPath levels m p) := by
      have h1 := hprev (by omega) p hp hpt
      simp only [Nat.add_sub_cancel] at h1
      rw [← hpc]
      exact h1
    have hne : (ancestorPath levels m p == "") = false :=
      beq_eq_false_iff_ne.mpr (ancestorPath_ne_empty levels m p
        (hids _ (getD_mem_of_lt levels m (by omega)) p hp hpt))
    simp only [relPathOf, hlook, Option.getD_some, hanc, hne, Bool.false_eq_true, if_false,
      Nat.succ_ne_zero]
    simp

/-- After one walk step, the new `paths_by_level` table maps every folder's
`current_id` at this level to its ancestor-join path. -/
theorem stepLM_paths_ok (levels : List Table)
    (hcid : ∀ t ∈ levels, (t.rows.map (·.current_id)).Nodup)
    (hparent : ∀ ℓ, ℓ + 1 < levels.length →
      ∀ r ∈ (levels.getD (ℓ + 1) default).rows, r.type = SAMPLE_TYPE_FOLDER →
        ∃ p ∈ (levels.getD ℓ default).rows,
          p.current_id = r.parent_id ∧ p.type = SAMPLE_TYPE_FOLDER)
    (hids : ∀ t ∈ levels, ∀ r ∈ t.rows, r.type = SAMPLE_TYPE_FOLDER → r.id ≠ "")
    (ℓ : Nat) (hℓ : ℓ < levels.length) (prevPaths : List (Int × String)) (next : Table)
    (hprev : 0 < ℓ → ∀ p ∈ (levels.getD (ℓ - 1) default).rows,
      p.type = SAMPLE_TYPE_FOLDER →
        prevPaths.lookup p.current_id = some (ancestorPath levels (ℓ - 1) p))
    (p : Row) (hp : p ∈ (levels.getD ℓ default).rows) (hpt : p.type = SAMPLE_TYPE_FOLDER) :
    (stepLM ℓ prevPaths (levels.getD ℓ default) next).1.lookup p.current_id
      = some (ancestorPath levels ℓ p) := by
  have hfsub : List.Sublist
      ((levels.getD ℓ default).rows.filter (fun r => r.type == SAMPLE_TYPE_FOLDER))
      (levels.getD ℓ default).rows := List.filter_sublist _
  have hndcid : (((levels.getD ℓ default).rows.filter
      (fun r => r.type == SAMPLE_TYPE_FOLDER)).map (·.current_id)).Nodup :=
    (hfsub.map _).nodup (hcid _ (getD_mem_of_lt levels ℓ hℓ))
  have hfmem : p ∈ (levels.getD ℓ default).rows.filter
      (fun r => r.type == SAMPLE_TYPE_FOLDER) := by
    refine List.mem_filter.mpr ⟨hp, ?_⟩
    simp [hpt]
  have h := lookup_rev_map _ (·.current_id) (fun f => relPathOf ℓ prevPaths f) hndcid p hfmem
  simp only [stepLM]
  rw [h]
  exact congrArg some (relPathOf_correct levels hcid hparent hids ℓ hℓ prevPaths hprev p hp hpt)

/-- Full characterization of the pairwise local-metadata walk starting at
level `ℓ`: every key it produces is a `DATA/<ancestor path>/` key of a folder
at some non-deepest level `m ≥ ℓ`, and looking up the key of any folder at a
level `m ≥ ℓ` with `m + 1 < |levels|` yields that folder's children table
sliced from level `m + 1`. -/
theorem buildLMAux_spec (levels : List Table)
    (hcid : ∀ t ∈ levels, (t.rows.map (·.current_id)).Nodup)
    (hparent : ∀ ℓ, ℓ + 1 < levels.length →
      ∀ r ∈ (levels.getD (ℓ + 1) default).rows, r.type = SAMPLE_TYPE_FOLDER →
        ∃ p ∈ (levels.getD ℓ default).rows,
          p.current_id = r.parent_id ∧ p.type = SAMPLE_TYPE_FOLDER)
    (hids : ∀ t ∈ levels, ∀ r ∈ t.rows, r.type = SAMPLE_TYPE_FOLDER → r.id ≠ "")
    (hkeys : (folderKeys levels).Nodup) :
    ∀ (rest : List Table) (ℓ : Nat) (prevPaths : List (Int × String)),
      levels.drop ℓ = rest →
      (0 < ℓ → ∀ p ∈ (levels.getD (ℓ - 1) default).rows, p.type = SAMPLE_TYPE_FOLDER →
        prevPaths.lookup p.current_id = some (ancestorPath levels (ℓ - 1) p)) →
      (∀ k ∈ (buildLMAux prevPaths ℓ rest).map Prod.fst,
        ∃ m, ℓ ≤ m ∧ m < levels.length - 1 ∧ k ∈ folderKeySeg levels m) ∧
      (∀ m, ℓ ≤ m → m + 1 < levels.length →
        ∀ f ∈ (levels.getD m default).rows, f.type = SAMPLE_TYPE_FOLDER →
          (buildLMAux prevPaths ℓ rest).lookup
              (FOLDER_DATA_DIR ++ "/" ++ ancestorPath levels m f ++ "/")
            = some (childrenOf (levels.getD (m + 1) default) f)) := by
  intro rest
  induction rest with
  | nil =>
    intro ℓ prevPaths hdrop hprev
    have hlen : levels.length ≤ ℓ := List.drop_eq_nil_iff.mp hdrop
    have hB : buildLMAux prevPaths ℓ ([] : List Table) = [] := rfl
    constructor
    · intro k hk; rw [hB] at hk; simp at hk
    · intro m hm hmlt f hf hft; exact absurd hmlt (by omega)
  | cons cur tail ih =>
    intro ℓ prevPaths hdrop hprev
    cases tail with
    | nil =>
      have hlen : levels.length - ℓ = 1 := by
        have h := congrArg List.length hdrop
        simpa using h
      have hB : buildLMAux prevPaths ℓ [cur] = [] := rfl
      constructor
      · intro k hk; rw [hB] at hk; simp at hk
      · intro m hm hmlt f hf hft; exact absurd hmlt (by omega)
    | cons next rest2 =>
      obtain ⟨hcur, hdrop1, hℓlt⟩ := drop_head_getD levels hdrop
      obtain ⟨hnext, hdrop2, hℓ1lt⟩ := drop_head_getD levels hdrop1
      have hunf : buildLMAux prevPaths ℓ (cur :: next :: rest2)
          = buildLMAux (stepLM ℓ prevPaths cur next).1 (ℓ + 1) (next :: rest2)
            ++ (stepLM ℓ prevPaths cur next).2 := rfl
      have hprev1 : 0 < ℓ + 1 → ∀ p ∈ (levels.getD ℓ default).rows,
          p.type = SAMPLE_TYPE_FOLDER →
            (stepLM ℓ prevPaths cur next).1.lookup p.current_id
              = some (ancestorPath levels ℓ p) := by
        intro _ p hp hpt
        have h := stepLM_paths_ok levels hcid hparent hids ℓ hℓlt prevPaths next hprev p hp hpt
        rw [hcur] at h
        exact h
      obtain ⟨ihkeys, ihlook⟩ := ih (ℓ + 1) (stepLM ℓ prevPaths cur next).1 hdrop1 hprev1
      constructor
      · intro k hk
        rw [hunf, List.map_append] at hk
        rcases List.mem_append.mp hk with hk | hk
        · obtain ⟨m, hm1, hm2, hm3⟩ := ihkeys k hk
          exact ⟨m, by omega, hm2, hm3⟩
        · simp only [stepLM, List.map_reverse, List.mem_reverse, List.map_map,
            List.mem_map, Function.comp] at hk
          obtain ⟨f, hfmem, hfk⟩ := hk
          have hfrow : f ∈ (levels.getD ℓ default).rows := by
            rw [hcur]; exact (List.mem_filter.mp hfmem).1
          have hftype : f.type = SAMPLE_TYPE_FOLDER := eq_of_beq (List.mem_filter.mp hfmem).2
          have hrp : relPathOf ℓ prevPaths f = ancestorPath levels ℓ f :=
            relPathOf_correct levels hcid hparent hids ℓ hℓlt prevPaths hprev f hfrow hftype
          refine ⟨ℓ, Nat.le_refl ℓ, by omega, ?_⟩
          rw [← hfk, hrp]
          exact mem_folderKeySeg levels ℓ f hfrow hftype
      · intro m hm hmlt f hf hft
        rcases Nat.eq_or_lt_of_le hm with heq | hlt
        · subst heq
          rw [hunf]
          have hnotmem : (FOLDER_DATA_DIR ++ "/" ++ ancestorPath levels ℓ f ++ "/")
              ∉ (buildLMAux (stepLM ℓ prevPaths cur next).1 (ℓ + 1) (next :: rest2)).map
                  Prod.fst := by
            intro hmem
            obtain ⟨m2, hm2a, hm2b, hm2c⟩ := ihkeys _ hmem
            have hseg : (FOLDER_DATA_DIR ++ "/" ++ ancestorPath levels ℓ f ++ "/")
                ∈ folderKeySeg levels ℓ := mem_folderKeySeg levels ℓ f hf hft
            exact folderKeySeg_disjoint levels hkeys
              (show ℓ ≠ m2 by omega) (by omega) hm2b hseg hm2c
          rw [lookup_append_of_not_mem _ _ _ hnotmem]
          have hnd : ((cur.rows.filter (fun r => r.type == SAMPLE_TYPE_FOLDER)).map
              (fun g => FOLDER_DATA_DIR ++ "/" ++ ancestorPath levels ℓ g ++ "/")).Nodup := by
            have h := folderKeySeg_nodup levels hkeys ℓ (by omega)
            simp only [folderKeySeg, hcur] at h
            exact h
          have hfcur : f ∈ cur.rows := by rw [← hcur]; exact hf
          have hfmem : f ∈ cur.rows.filter (fun r => r.type == SAMPLE_TYPE_FOLDER) :=
            List.mem_filter.mpr ⟨hfcur, by simp [hft]⟩
          have hmapeq : (cur.rows.filter (fun r => r.type == SAMPLE_TYPE_FOLDER)).map
              (fun g => (FOLDER_DATA_DIR ++ "/" ++ relPathOf ℓ prevPaths g ++ "/",
                childrenOf next g))
            = (cur.rows.filter (fun r => r.type == SAMPLE_TYPE_FOLDER)).map
              (fun g => (FOLDER_DATA_DIR ++ "/" ++ ancestorPath levels ℓ g ++ "/",
                childrenOf next g)) := by
            refine List.map_congr_left ?_
            intro g hg
            have hgrow : g ∈ (levels.getD ℓ default).rows := by
              rw [hcur]; exact (List.mem_filter.mp hg).1
            have hgt : g.type = SAMPLE_TYPE_FOLDER := eq_of_beq (List.mem_filter.mp hg).2
            rw [relPathOf_correct levels hcid hparent hids ℓ hℓlt prevPaths hprev g hgrow hgt]
          rw [hnext]
          simp only [stepLM]
          rw [hmapeq]
          exact lookup_rev_map _
            (fun g => FOLDER_DATA_DIR ++ "/" ++ ancestorPath levels ℓ g ++ "/")
            (fun g => childrenOf next g) hnd f hfmem
        · rw [hunf]
          exact lookup_append_of_some _ _ _ _ (ihlook m (by omega) hmlt f hf hft)

/-- C5 (counterexample to the claim as stated): `build_local_metadata` walks
level pairs over `range(len(levels) - 1)`, so a FOLDER row of the deepest
level gets no `DATA/<path>/` key.  In `levelsDeepFolder` the deepest level
holds the folder row `b` (ancestor path `a/b`), the map's only key is
`DATA/a/`, and looking up `DATA/a/b/` yields nothing. -/
theorem local_metadata_coverage_false :
    mkFolderRow "b" 0 0 ∈ (levelsDeepFolder.getD 1 default).rows ∧
    (mkFolderRow "b" 0 0).type = SAMPLE_TYPE_FOLDER ∧
    1 = levelsDeepFolder.length - 1 ∧
    ancestorPath levelsDeepFolder 1 (mkFolderRow "b" 0 0) = "a/b" ∧
    (build_local_metadata levelsDeepFolder).map Prod.fst = [FOLDER_DATA_DIR ++ "/a/"] ∧
    (build_local_metadata levelsDeepFolder).lookup
      (FOLDER_DATA_DIR ++ "/" ++ "a/b" ++ "/") = none := by
  refine ⟨by decide, rfl, rfl, rfl, rfl, rfl⟩

/-- C5 (amended): for level tables whose per-level `internal:current_id`
values are distinct, whose folder rows each have a FOLDER parent at the
level directly above, whose folder ids are nonempty, and whose
`DATA/<ancestor path>/` folder keys are globally distinct,
`build_local_metadata` maps the key of every FOLDER row of every level
except the deepest to that folder's children table sliced from the next
level: the rows with matching `internal:parent_id` (none iff the folder is
empty, the slice keeping the level's schema minus any
`internal:relative_path` column, independent of the matching rows). -/
theorem local_metadata_coverage (levels : List Table)
    (hcid : ∀ t ∈ levels, (t.rows.map (·.current_id)).Nodup)
    (hparent : ∀ ℓ, ℓ + 1 < levels.length →
      ∀ r ∈ (levels.getD (ℓ + 1) default).rows, r.type = SAMPLE_TYPE_FOLDER →
        ∃ p ∈ (levels.getD ℓ default).rows,
          p.current_id = r.parent_id ∧ p.type = SAMPLE_TYPE_FOLDER)
    (hids : ∀ t ∈ levels, ∀ r ∈ t.rows, r.type = SAMPLE_TYPE_FOLDER → r.id ≠ "")
    (hkeys : (folderKeys levels).Nodup)
    (ℓ : Nat) (hℓ : ℓ + 1 < levels.length)
    (f : Row) (hf : f ∈ (levels.getD ℓ default).rows) (hft : f.type = SAMPLE_TYPE_FOLDER) :
    (build_local_metadata levels).lookup
        (FOLDER_DATA_DIR ++ "/" ++ ancestorPath levels ℓ f ++ "/")
      = some (childrenOf (levels.getD (ℓ + 1) default) f) ∧
    ((childrenOf (levels.getD (ℓ + 1) default) f).rows = [] ↔
      ∀ r ∈ (levels.getD (ℓ + 1) default).rows, r.parent_id ≠ f.current_id) ∧
    (childrenOf (levels.getD (ℓ + 1) default) f).cols
      = (if (levels.getD (ℓ + 1) default).cols.contains METADATA_RELATIVE_PATH
         then (levels.getD (ℓ + 1) default).cols.erase METADATA_RELATIVE_PATH
         else (levels.getD (ℓ + 1) default).cols) := by
  refine ⟨?_, ?_, ?_⟩
  · have h := (buildLMAux_spec levels hcid hparent hids hkeys levels 0 []
      rfl (fun hcontr => absurd hcontr (by omega))).2
    exact h ℓ (Nat.zero_le ℓ) hℓ f hf hft
  · simp only [childrenOf]
    cases hc : (levels.getD (ℓ + 1) default).cols.contains METADATA_RELATIVE_PATH with
    | true =>
      simp only [if_true]
      rw [List.map_eq_nil_iff, List.filter_eq_nil_iff]
      constructor
      · intro h r hr; exact fun hpid => by simpa [hpid] using h r hr
      · intro h r hr; simpa using h r hr
    | false =>
      simp only [Bool.false_eq_true, if_false]
      rw [List.filter_eq_nil_iff]
      constructor
      · intro h r hr; exact fun hpid => by simpa [hpid] using h r hr
      · intro h r hr; simpa using h r hr
  · simp only [childrenOf]
    cases hc : (levels.getD (ℓ + 1) default).cols.contains METADATA_RELATIVE_PATH <;> simp [hc]

/-- Closed instance of `local_metadata_coverage` on `levelsDeepFolder`:
level 0's folder `a` is covered with the level-1 children slice. -/
theorem local_metadata_coverage_witness :
    (build_local_metadata levelsDeepFolder).lookup
        (FOLDER_DATA_DIR ++ "/" ++ ancestorPath levelsDeepFolder 0 (mkFolderRow "a" 0 0) ++ "/")
      = some (childrenOf (levelsDeepFolder.getD 1 default) (mkFolderRow "a" 0 0)) :=
  (local_metadata_coverage levelsDeepFolder (by decide)
    (by
      intro ℓ hℓ r hr hrt
      have hℓ0 : ℓ = 0 := by
        have hlen : levelsDeepFolder.length = 2 := rfl
        omega
      subst hℓ0
      have hr2 : r = mkFolderRow "b" 0 0 := by
        simpa [levelsDeepFolder] using hr
      subst hr2
      exact ⟨mkFolderRow "a" 0 0, by decide, rfl, rfl⟩)
    (by decide) (by decide)
    0 (by decide) (mkFolderRow "a" 0 0) (by decide) rfl).1

/-- A fold of `write_bytes` prepends the written pairs, most recent
first. -/
theorem foldl_write_files {α : Type} (wf : α → String × List Nat) :
    ∀ (L : List α) (fs : FS),
      (L.foldl (fun f x => write_bytes f (wf x).1 (wf x).2) fs).files
        = (L.map wf).reverse ++ fs.files := by
  intro L
  induction L with
  | nil => intro fs; rfl
  | cons x xs ih =>
    intro fs
    simp only [List.foldl_cons, List.map_cons, List.reverse_cons]
    rw [ih]
    simp [write_bytes]

/-- When every task's source is readable, sequential execution succeeds and
is the fold of the tasks' writes. -/
theorem runTasks_ok_foldl (isRemote : String → Bool) (srcBytes : String → Option (List Nat)) :
    ∀ (ts : List CopyTask) (fs : FS),
      (∀ t ∈ ts, (srcBytes t.src).isSome) →
      runTasks isRemote srcBytes fs ts
        = .ok (ts.foldl (fun f t => write_bytes f (taskWrite isRemote srcBytes t).1
            (taskWrite isRemote srcBytes t).2) fs) := by
  intro ts
  induction ts with
  | nil => intro fs h; rfl
  | cons t rest ih =>
    intro fs h
    obtain ⟨data, hdata⟩ := Option.isSome_iff_exists.mp (h t (List.mem_cons_self t rest))
    simp only [runTasks, execute, hdata, List.foldl_cons]
    rw [ih _ (fun u hu => h u (List.mem_cons_of_mem t hu))]
    simp [taskWrite, hdata]

theorem lookup_eq_none_iff {α β : Type} [BEq α] [LawfulBEq α] (l : List (α × β)) (k : α) :
    l.lookup k = none ↔ k ∉ l.map Prod.fst := by
  induction l with
  | nil => simp [List.lookup]
  | cons p rest ih =>
    simp only [List.lookup, List.map_cons, List.mem_cons]
    cases hk : k == p.1 with
    | true => simp [eq_of_beq hk]
    | false => simp [ih, ne_of_beq_false hk]

/-- Under distinct keys, lookup only depends on the set of pairs. -/
theorem lookup_perm_nodup {α β : Type} [BEq α] [LawfulBEq α] {L1 L2 : List (α × β)}
    (hperm : List.Perm L1 L2) (hnd : (L1.map Prod.fst).Nodup) (k : α) :
    L1.lookup k = L2.lookup k := by
  have hnd2 : (L2.map Prod.fst).Nodup := ((hperm.map Prod.fst).nodup_iff).mp hnd
  cases h1 : L1.lookup k with
  | some v =>
    have hmem := (lookup_eq_some_iff_nodup L1 hnd k v).mp h1
    exact ((lookup_eq_some_iff_nodup L2 hnd2 k v).mpr (hperm.mem_iff.mp hmem)).symm
  | none =>
    have hnm := (lookup_eq_none_iff L1 k).mp h1
    have hnm2 : k ∉ L2.map Prod.fst := fun hc => hnm (((hperm.map Prod.fst).mem_iff).mpr hc)
    exact ((lookup_eq_none_iff L2 k).mpr hnm2).symm

theorem lookup_append_congr {α β : Type} [BEq α] [LawfulBEq α]
    (A B rest : List (α × β)) (h : ∀ k, A.lookup k = B.lookup k) :
    ∀ k, (A ++ rest).lookup k = (B ++ rest).lookup k := by
  intro k
  cases hA : A.lookup k with
  | some v =>
    rw [lookup_append_of_some _ _ _ _ hA,
        lookup_append_of_some _ _ _ _ ((h k).symm.trans hA)]
  | none =>
    rw [lookup_append_of_not_mem _ _ _ ((lookup_eq_none_iff A k).mp hA),
        lookup_append_of_not_mem _ _ _ ((lookup_eq_none_iff B k).mp ((h k).symm.trans hA))]

theorem lookup_append_congr2 {α β : Type} [BEq α] [LawfulBEq α]
    (C Y1 Y2 : List (α × β)) (h : ∀ k, Y1.lookup k = Y2.lookup k) :
    ∀ k, (C ++ Y1).lookup k = (C ++ Y2).lookup k := by
  intro k
  induction C with
  | nil => exact h k
  | cons p rest ih =>
    simp only [List.cons_append, List.lookup]
    cases k == p.1 with
    | true => rfl
    | false => exact ih

theorem lookup_cons_congr {α β : Type} [BEq α] (a : α × β) (A B : List (α × β))
    (h : ∀ k, A.lookup k = B.lookup k) (k : α) :
    (a :: A).lookup k = (a :: B).lookup k := by
  simp only [List.lookup]
  cases k == a.1 with
  | true => rfl
  | false => exact h k

/-- The folder finalizer's writes, most recent first: `COLLECTION.json`,
then each `__meta__`, then the `METADATA/level<ℓ>.parquet` files. -/
theorem finalize_files (pqCdc pq : Table → List Nat) (collBytes : List Nat)
    (output : String) (levels : List Table) (lm : List (String × Table)) (fs : FS) :
    (finalize_to_folder pqCdc pq collBytes output levels lm fs).files
      = (output ++ "/" ++ FOLDER_COLLECTION_FILENAME, collBytes)
        :: ((lm.map (fun p => (output ++ "/" ++ p.1 ++ FOLDER_META_FILENAME, pq p.2))).reverse
          ++ ((levels.enum.map (fun p =>
                (output ++ "/" ++ FOLDER_METADATA_DIR ++ "/level" ++ toString p.1 ++ ".parquet",
                 pqCdc p.2))).reverse
            ++ fs.files)) := by
  have h1 : ((levels.enum).foldl (fun f p => write_bytes f
        (output ++ "/" ++ FOLDER_METADATA_DIR ++ "/level" ++ toString p.1 ++ ".parquet")
        (pqCdc p.2)) fs).files
      = (levels.enum.map (fun p =>
          (output ++ "/" ++ FOLDER_METADATA_DIR ++ "/level" ++ toString p.1 ++ ".parquet",
           pqCdc p.2))).reverse ++ fs.files :=
    foldl_write_files (fun p =>
      (output ++ "/" ++ FOLDER_METADATA_DIR ++ "/level" ++ toString p.1 ++ ".parquet",
       pqCdc p.2)) levels.enum fs
  have h2 : (lm.foldl (fun f p => write_bytes f
        (output ++ "/" ++ p.1 ++ FOLDER_META_FILENAME) (pq p.2))
        ((levels.enum).foldl (fun f p => write_bytes f
          (output ++ "/" ++ FOLDER_METADATA_DIR ++ "/level" ++ toString p.1 ++ ".parquet")
          (pqCdc p.2)) fs)).files
      = (lm.map (fun p => (output ++ "/" ++ p.1 ++ FOLDER_META_FILENAME, pq p.2))).reverse
        ++ ((levels.enum).foldl (fun f p => write_bytes f
          (output ++ "/" ++ FOLDER_METADATA_DIR ++ "/level" ++ toString p.1 ++ ".parquet")
          (pqCdc p.2)) fs).files :=
    foldl_write_files (fun p => (output ++ "/" ++ p.1 ++ FOLDER_META_FILENAME, pq p.2)) lm _
  exact congrArg (fun l => (output ++ "/" ++ FOLDER_COLLECTION_FILENAME, collBytes) :: l)
    (h2.trans (congrArg (fun l =>
      (lm.map (fun p => (output ++ "/" ++ p.1 ++ FOLDER_META_FILENAME, pq p.2))).reverse ++ l) h1))

/-- The folder finalizer preserves pointwise-equal base filesystems: its
output reads depend on the base only through the base's reads. -/
theorem finalize_read_congr (pqCdc pq : Table → List Nat) (collBytes : List Nat)
    (output : String) (levels : List Table) (lm : List (String × Table)) (fsA fsB : FS)
    (h : ∀ k, fsA.files.lookup k = fsB.files.lookup k) (p : String) :
    (finalize_to_folder pqCdc pq collBytes output levels lm fsA).read p
      = (finalize_to_folder pqCdc pq collBytes output levels lm fsB).read p := by
  simp only [FS.read]
  rw [finalize_files, finalize_files]
  exact lookup_cons_congr _ _ _
    (lookup_append_congr2 _ _ _ (lookup_append_congr2 _ _ _ h)) p

/-- C7: the fast local zip→folder path is byte-identical to the general
plan/execute/finalize path.  Hypotheses are the archive reader's contract:
every planned task's source is readable, the `(dest, bytes)` writes of the
planned tasks are (up to execution order) exactly the direct extraction
writes of the archive's `DATA/*` members (excluding `__meta__`), and the
planned destinations are distinct.  Conclusion: the general path succeeds
and its output filesystem reads identically to the fast path's on every
path. -/
theorem zip2folder_local_refines_general
    (strip : String → String) (ds : ZipDataset) (isRemote : String → Bool)
    (srcBytes : String → Option (List Nat)) (pqCdc pq : Table → List Nat)
    (jsonSer : Heap → PyDict → List Nat) (source output : String) (fs : FS)
    (zip : List (String × List Nat))
    (hsrc : ∀ t ∈ (collect_copy_tasks_from_snapshot strip ds.toDataset ds.snapshot output).1,
      (srcBytes t.src).isSome)
    (hperm : List.Perm
      ((collect_copy_tasks_from_snapshot strip ds.toDataset ds.snapshot output).1.map
        (taskWrite isRemote srcBytes))
      ((zip.filter (fun m => isDataMember m.1)).map (fun m => (output ++ "/" ++ m.1, m.2))))
    (hnd : ((collect_copy_tasks_from_snapshot strip ds.toDataset ds.snapshot output).1.map
        (fun t => (taskWrite isRemote srcBytes t).1)).Nodup) :
    ∃ fsGen, zip2folder_general strip ds isRemote srcBytes pqCdc pq jsonSer false true
        source output fs = .ok fsGen ∧
      ∀ p, fsGen.read p = (zip2folder_local ds zip pqCdc pq jsonSer output fs).read p := by
  refine ⟨finalize_to_folder pqCdc pq (jsonSer ds.heap (ds.heap.get ds.collAddr)) output
      (strip_zip_columns ds.fullLevels)
      (build_local_metadata (strip_zip_columns ds.fullLevels))
      ((collect_copy_tasks_from_snapshot strip ds.toDataset ds.snapshot output).1.foldl
        (fun f t => write_bytes f (taskWrite isRemote srcBytes t).1
          (taskWrite isRemote srcBytes t).2) fs), ?_, ?_⟩
  · have hstep : zip2folder_general strip ds isRemote srcBytes pqCdc pq jsonSer false true
        source output fs
      = (match runTasks isRemote srcBytes fs
            (collect_copy_tasks_from_snapshot strip ds.toDataset ds.snapshot output).1 with
         | .error e => .error (.otherError e)
         | .ok fs2 => .ok (finalize_to_folder pqCdc pq
             (jsonSer ds.heap (ds.heap.get ds.collAddr)) output
             (strip_zip_columns ds.fullLevels)
             (build_local_metadata (strip_zip_columns ds.fullLevels)) fs2)) := rfl
    rw [hstep, runTasks_ok_foldl isRemote srcBytes _ fs hsrc]
  · intro p
    have hlocal : zip2folder_local ds zip pqCdc pq jsonSer output fs
        = finalize_to_folder pqCdc pq (jsonSer ds.heap (ds.heap.get ds.collAddr)) output
            (strip_zip_columns ds.fullLevels)
            (build_local_metadata (strip_zip_columns ds.fullLevels))
            ((zip.filter (fun m => isDataMember m.1)).foldl
              (fun f m => write_bytes f (output ++ "/" ++ m.1) m.2) fs) := rfl
    rw [hlocal]
    refine finalize_read_congr _ _ _ _ _ _ _ _ ?_ p
    intro k
    have hfiles1 : ((collect_copy_tasks_from_snapshot strip ds.toDataset ds.snapshot
          output).1.foldl (fun f t => write_bytes f (taskWrite isRemote srcBytes t).1
            (taskWrite isRemote srcBytes t).2) fs).files
        = ((collect_copy_tasks_from_snapshot strip ds.toDataset ds.snapshot output).1.map
            (taskWrite isRemote srcBytes)).reverse ++ fs.files :=
      foldl_write_files (taskWrite isRemote srcBytes) _ fs
    have hfiles2 : ((zip.filter (fun m => isDataMember m.1)).foldl
          (fun f m => write_bytes f (output ++ "/" ++ m.1) m.2) fs).files
        = ((zip.filter (fun m => isDataMember m.1)).map
            (fun m => (output ++ "/" ++ m.1, m.2))).reverse ++ fs.files :=
      foldl_write_files (fun m : String × List Nat => (output ++ "/" ++ m.1, m.2)) _ fs
    rw [hfiles1, hfiles2]
    refine lookup_append_congr _ _ _ (fun k2 => ?_) k
    have hpermR : List.Perm
        (((collect_copy_tasks_from_snapshot strip ds.toDataset ds.snapshot output).1.map
          (taskWrite isRemote srcBytes)).reverse)
        (((zip.filter (fun m => isDataMember m.1)).map
          (fun m => (output ++ "/" ++ m.1, m.2))).reverse) :=
      ((List.reverse_perm _).trans hperm).trans (List.reverse_perm _).symm
    refine lookup_perm_nodup hpermR ?_ k2
    rw [List.map_reverse, List.nodup_reverse, List.map_map]
    exact hnd

/-- Closed instance of the C7 equivalence on a one-file archive. -/
theorem zip2folder_local_refines_general_witness :
    ∃ fsGen, zip2folder_general (fun x => x) dsZipSmall (fun _ => false) srcBytesSmall
        (fun _ => [7]) (fun _ => [8]) (fun _ _ => [5]) false true "src.tacozip" "out" ⟨[], []⟩
        = .ok fsGen ∧
      ∀ p, fsGen.read p
        = (zip2folder_local dsZipSmall zipSmall (fun _ => [7]) (fun _ => [8]) (fun _ _ => [5])
            "out" ⟨[], []⟩).read p :=
  zip2folder_local_refines_general (fun x => x) dsZipSmall (fun _ => false) srcBytesSmall
    (fun _ => [7]) (fun _ => [8]) (fun _ _ => [5]) "src.tacozip" "out" ⟨[], []⟩ zipSmall
    (by decide) (by decide) (by decide)

end TacoBridge
